import Mathlib

set_option maxRecDepth 100000

/-!
Shallow embedding of the rdapper domain-lookup library (TypeScript) in Lean 4,
together with theorems checking its natural-language specification.

Modelling conventions:
* JS strings are Lean `String`s; the character-level helpers below work on
  `List Char` with structural recursion so that concrete evaluations reduce.
* Case mapping and whitespace are modelled on the ASCII range; the source uses
  JS `toLowerCase`/`\s`, which additionally handle Unicode (e.g. U+212A), but
  every string below and every input in the theorems is ASCII.
* `async` network calls are modelled by explicit environments
  (`String → Option String` etc.); `none` models a thrown/failed request.
* JS `undefined`-able values are `Option`s; JS numbers that hold integral
  values are `Int`/`Nat`.
-/

namespace Rdapper

/-- ASCII lower-casing of a character, as used by JS `toLowerCase` on the ASCII range. -/
def asciiLower (c : Char) : Char :=
  if 65 ≤ c.toNat ∧ c.toNat ≤ 90 then Char.ofNat (c.toNat + 32) else c

/-- Lower-case every character of a string (ASCII model of `String.prototype.toLowerCase`). -/
def jsToLower (s : String) : String :=
  String.mk (s.data.map asciiLower)

/-- Whitespace class of JS `\s` restricted to the ASCII range. -/
def isJsWs (c : Char) : Bool :=
  c = ' ' ∨ c = '\t' ∨ c = '\n' ∨ c = '\r' ∨ c = '\x0b' ∨ c = '\x0c'

/-- Word character of JS `\w` / `\b`: ASCII letters, digits and underscore. -/
def isWordChar (c : Char) : Bool :=
  ('a' ≤ c ∧ c ≤ 'z') ∨ ('A' ≤ c ∧ c ≤ 'Z') ∨ ('0' ≤ c ∧ c ≤ '9') ∨ c = '_'

/-- Drop leading whitespace characters. -/
def dropLeadWs : List Char → List Char
  | [] => []
  | c :: cs => if isJsWs c then dropLeadWs cs else c :: cs

/-- JS `String.prototype.trim` (ASCII whitespace model). -/
def jsTrim (s : String) : String :=
  String.mk ((dropLeadWs (dropLeadWs s.data.reverse).reverse))

/-- JS `trimEnd` / `replace(/\s+$/, "")` (ASCII whitespace model). -/
def jsTrimEnd (s : String) : String :=
  String.mk ((dropLeadWs s.data.reverse).reverse)

/-- JS `trimStart` (ASCII whitespace model). -/
def jsTrimStart (s : String) : String :=
  String.mk (dropLeadWs s.data)

/-- Split a character list at every occurrence of the separator character. -/
def splitOnCharAux (sep : Char) : List Char → List Char → List (List Char)
  | [], acc => [acc.reverse]
  | c :: cs, acc =>
    if c = sep then acc.reverse :: splitOnCharAux sep cs []
    else splitOnCharAux sep cs (c :: acc)

/-- Split a string on a separator character (JS `split("…")` with a one-character separator). -/
def splitOnChar (sep : Char) (s : String) : List String :=
  (splitOnCharAux sep s.data []).map String.mk

/-- JS `text.split(/\r?\n/)`: split on newlines, dropping a carriage return that
immediately precedes each newline. -/
def jsLines (s : String) : List String :=
  (splitOnChar '\n' s).map (fun l =>
    if l.data.reverse.head? = some '\r' then String.mk l.data.dropLast else l)

/-- Check that `pre` is a prefix of `cs` after ASCII lower-casing `cs`
(the pattern `pre` is given in lower case). -/
def lowerStartsWith : List Char → List Char → Bool
  | [], _ => true
  | _ :: _, [] => false
  | p :: ps, c :: cs => asciiLower c = p ∧ lowerStartsWith ps cs

/-- Maximal non-whitespace runs of a character list, in order. -/
def wsTokens : List Char → List Char → List (List Char)
  | [], acc => if acc.isEmpty then [] else [acc.reverse]
  | c :: cs, acc =>
    if isJsWs c then
      (if acc.isEmpty then wsTokens cs [] else acc.reverse :: wsTokens cs [])
    else wsTokens cs (c :: acc)

/-- JS `String.prototype.split(/\s+/)`: runs of whitespace separate tokens; a
leading (resp. trailing) run contributes an initial (resp. final) empty token,
and the empty string yields `[""]`. -/
def jsSplitWs (s : String) : List String :=
  match s.data with
  | [] => [""]
  | c :: cs =>
    let toks := (wsTokens (c :: cs) []).map String.mk
    let pre : List String := if isJsWs c then [""] else []
    let post : List String := if isJsWs ((c :: cs).reverse.headD c) then [""] else []
    pre ++ toks ++ post

/-- Helper for `uniqList`: keep elements not yet seen. -/
def uniqListAux : List String → List String → List String
  | [], _ => []
  | x :: xs, seen =>
    if seen.contains x then uniqListAux xs seen else x :: uniqListAux xs (x :: seen)

/-- First-occurrence deduplication, as `Array.from(new Set(xs))` on JS primitives. -/
def uniqList (l : List String) : List String :=
  uniqListAux l []

/-- JS `String.prototype.slice(0, n)` on our strings. -/
def jsTake (n : Nat) (s : String) : String :=
  String.mk (s.data.take n)

/-- Substring test at every position, with lower-casing of the text
(the pattern is given in lower case). -/
def containsLower (pat : List Char) : List Char → Bool
  | [] => lowerStartsWith pat []
  | c :: cs => lowerStartsWith pat (c :: cs) ∨ containsLower pat cs

/-- Case-insensitive substring test, JS `lowered.includes(pat)` for a lower-case `pat`. -/
def containsCI (pat : String) (s : String) : Bool :=
  containsLower pat.data s.data

/-! ### A small matcher for the fixed availability regexes

The WHOIS availability heuristics (`src/lib/domain.ts` and
`src/whois/normalize.ts`) test a fixed list of case-insensitive regular
expressions built only from literal characters, `\b`, `\s+`, `\s*` and
`[:\s]+`.  `PItem` is exactly that pattern language; `matchAt` decides a match
at the start of the input and `regexTest` models `re.test(text)` by trying
every position. -/

/-- One item of a compiled availability pattern. -/
inductive PItem where
  | ch (c : Char)
  | ws1
  | ws0
  | clws
  | wb
deriving DecidableEq, Repr

/-- Word-boundary test between an optional previous character and the rest of the input. -/
def atBoundary (prev : Option Char) (cs : List Char) : Bool :=
  (match prev with | none => false | some c => isWordChar c)
    ≠ (match cs with | [] => false | c :: _ => isWordChar c)

/-- Match a compiled pattern at the start of `cs` (with `prev` the character
just before `cs`, for word boundaries), with full backtracking.  The `Nat`
fuel makes the recursion structural; every recursive call strictly decreases
`ps.length + cs.length`, so any fuel of at least that size is adequate, and
the fuel-exhausted base case (where necessarily `ps = []`) returns `true`
exactly as the empty pattern does. -/
def matchAt : Nat → List PItem → Option Char → List Char → Bool
  | _, [], _, _ => true
  | 0, _ :: _, _, _ => true
  | _ + 1, .ch _ :: _, _, [] => false
  | n + 1, .ch c :: ps, _, x :: xs => asciiLower x = c ∧ matchAt n ps (some x) xs
  | n + 1, .wb :: ps, prev, cs => atBoundary prev cs ∧ matchAt n ps prev cs
  | _ + 1, .ws1 :: _, _, [] => false
  | n + 1, .ws1 :: ps, _, x :: xs =>
    isJsWs x ∧ (matchAt n ps (some x) xs ∨ matchAt n (.ws1 :: ps) (some x) xs)
  | n + 1, .ws0 :: ps, prev, [] => matchAt n ps prev []
  | n + 1, .ws0 :: ps, prev, x :: xs =>
    matchAt n ps prev (x :: xs) ∨ (isJsWs x ∧ matchAt n (.ws0 :: ps) (some x) xs)
  | _ + 1, .clws :: _, _, [] => false
  | n + 1, .clws :: ps, _, x :: xs =>
    (isJsWs x ∨ x = ':') ∧ (matchAt n ps (some x) xs ∨ matchAt n (.clws :: ps) (some x) xs)

/-- Try `matchAt` at every position of the input. -/
def searchFrom (ps : List PItem) (fuel : Nat) : Option Char → List Char → Bool
  | prev, [] => matchAt fuel ps prev []
  | prev, x :: xs => matchAt fuel ps prev (x :: xs) ∨ searchFrom ps fuel (some x) xs

/-- JS `re.test(text)` for a compiled pattern. -/
def regexTest (ps : List PItem) (s : String) : Bool :=
  searchFrom ps (ps.length + s.data.length + 1) none s.data

/-- Compile a literal (lower-case) string to pattern items. -/
def litP (s : String) : List PItem :=
  s.data.map PItem.ch

/-- Compile `\b…\b` around a literal. -/
def wlit (s : String) : List PItem :=
  [PItem.wb] ++ litP s ++ [PItem.wb]

/-- The availability phrase patterns of `src/lib/domain.ts`
(`WHOIS_AVAILABLE_PATTERNS` there) used by the referral walker. -/
def whoisAvailablePatternsDomain : List (List PItem) :=
  [ wlit "no match"
  , wlit "not found"
  , wlit "no entries found"
  , wlit "no data found"
  , wlit "available for registration"
  , [PItem.wb] ++ litP "domain" ++ [PItem.ws1] ++ litP "available" ++ [PItem.wb]
  , [PItem.wb] ++ litP "domain status" ++ [PItem.clws] ++ litP "available" ++ [PItem.wb]
  , wlit "object does not exist"
  , wlit "the queried object does not exist"
  ]

/-- The availability phrase patterns of `src/whois/normalize.ts`
(`WHOIS_AVAILABLE_PATTERNS` there) used by the WHOIS normalizer; a strict
superset of the walker's list. -/
def whoisAvailablePatternsNormalize : List (List PItem) :=
  [ wlit "no match"
  , wlit "not found"
  , wlit "no entries found"
  , wlit "no data found"
  , wlit "available for registration"
  , [PItem.wb] ++ litP "domain" ++ [PItem.ws1] ++ litP "available" ++ [PItem.wb]
  , [PItem.wb] ++ litP "domain status" ++ [PItem.clws] ++ litP "available" ++ [PItem.wb]
  , wlit "object does not exist"
  , wlit "the queried object does not exist"
  , wlit "queried object does not exist"
  , wlit "returned 0 objects"
  , [PItem.wb] ++ litP "status:" ++ [PItem.ws0] ++ litP "free" ++ [PItem.wb]
  , [PItem.wb] ++ litP "status:" ++ [PItem.ws0] ++ litP "available" ++ [PItem.wb]
  , wlit "no object found"
  , wlit "nicht gefunden"
  , wlit "pending release"
  ]

/-- Model of `isWhoisAvailable` (`src/lib/domain.ts`): best-effort availability
test used by the referral walker.  The JS guard `if (!text) return false` is
subsumed: no pattern matches the empty string. -/
def isWhoisAvailable (text : String) : Bool :=
  whoisAvailablePatternsDomain.any (fun p => regexTest p text)

/-- Model of `isAvailableByWhois` (`src/whois/normalize.ts`): availability test
used by the WHOIS normalizer. -/
def isAvailableByWhois (text : String) : Bool :=
  whoisAvailablePatternsNormalize.any (fun p => regexTest p text)

/-- The walker's pattern list is a sublist of the normalizer's, so a text with no
normalizer-pattern match has no walker-pattern match either. -/
theorem isWhoisAvailable_of_not_isAvailableByWhois (t : String)
    (h : isAvailableByWhois t = false) : isWhoisAvailable t = false := by
  unfold isAvailableByWhois whoisAvailablePatternsNormalize at h
  unfold isWhoisAvailable whoisAvailablePatternsDomain
  simp only [List.any_cons, Bool.or_eq_false_iff] at h ⊢
  tauto

/-! ### Domain shape check (`isLikelyDomain`, `src/lib/domain.ts`)

The source tests the lower-cased, trimmed input against
`/^(?=.{1,253}$)(?:(?!-)[a-z0-9-]{1,63}(?<!-)\.)+(?!-)[a-z0-9-]{2,63}(?<!-)$/`.
Since `.` cannot occur inside a label (the character class excludes it), the
regex is equivalent to the structural condition below: total length at most
253, at least two dot-separated labels, every label made of `[a-z0-9-]`,
no label starting or ending with `-`, non-final labels of length 1 to 63 and
the final label of length 2 to 63. -/

/-- Character class `[a-z0-9-]` of the domain regex (applied after lower-casing). -/
def isDomainChar (c : Char) : Bool :=
  ('a' ≤ c ∧ c ≤ 'z') ∨ ('0' ≤ c ∧ c ≤ '9') ∨ c = '-'

/-- One label of the domain regex: `(?!-)[a-z0-9-]{lo,63}(?<!-)`. -/
def okLabel (lo : Nat) (l : String) : Bool :=
  lo ≤ l.data.length ∧ l.data.length ≤ 63 ∧ l.data.all isDomainChar ∧
    l.data.head? ≠ some '-' ∧ l.data.reverse.head? ≠ some '-'

/-- Model of `isLikelyDomain` (`src/lib/domain.ts`). -/
def isLikelyDomain (value : String) : Bool :=
  let v := jsToLower (jsTrim value)
  let labels := splitOnChar '.' v
  1 ≤ v.data.length ∧ v.data.length ≤ 253 ∧ 2 ≤ labels.length ∧
    labels.dropLast.all (okLabel 1) ∧ (labels.reverse.headD "").length ≥ 0 ∧
    okLabel 2 (labels.reverse.headD "")

/-! ### Referral extraction (`extractWhoisReferral`, `src/whois/discovery.ts`)

The source tries, over the whole text with the `im` flags,
`^Registrar WHOIS Server:\s*(.+)$`, then `^Whois Server:\s*(.+)$`, then
`^ReferralServer:\s*whois:\/\/(.+)$`, returning `m[1].trim()` for the first
pattern that matches.  With the `m` flag each pattern matches line-by-line, so
the model scans `jsLines` per pattern; `\s*(.+)$` succeeds on a line starting
with the key (case-insensitively) iff anything follows the key, and the
captured group trims to the remainder of the line trimmed. -/

/-- Value captured by `^key\s*(.+)$` on one line, if the line matches. -/
def lineValueAfter (key : String) (line : String) : Option String :=
  if lowerStartsWith key.data line.data then
    let rest := String.mk (line.data.drop key.data.length)
    if rest.data.isEmpty then none else some (jsTrim rest)
  else none

/-- Value captured by `^ReferralServer:\s*whois:\/\/(.+)$` on one line. -/
def lineValueReferralServer (line : String) : Option String :=
  if lowerStartsWith "referralserver:".data line.data then
    let rest := jsTrimStart (String.mk (line.data.drop 15))
    if lowerStartsWith "whois://".data rest.data then
      let v := String.mk (rest.data.drop 8)
      if v.data.isEmpty then none else some (jsTrim v)
    else none
  else none

/-- First line (in text order) on which the extractor `f` succeeds. -/
def firstLineValue (f : String → Option String) : List String → Option String
  | [] => none
  | l :: ls =>
    match f l with
    | some v => some v
    | none => firstLineValue f ls

/-- Model of `extractWhoisReferral` (`src/whois/discovery.ts`). -/
def extractWhoisReferral (text : String) : Option String :=
  let ls := jsLines text
  match firstLineValue (lineValueAfter "registrar whois server:") ls with
  | some v => some v
  | none =>
    match firstLineValue (lineValueAfter "whois server:") ls with
    | some v => some v
    | none => firstLineValue lineValueReferralServer ls

/-! ### The WHOIS referral walkers (`src/whois/referral.ts`) -/

/-- One WHOIS response, `WhoisQueryResult` of `src/whois/client.ts`. -/
structure WhoisQueryResult where
  serverQueried : String
  text : String
deriving DecidableEq, Repr

/-- Server-name normalization private to `src/whois/referral.ts`: strip a
leading `whois://` (case-insensitively) and lower-case. -/
def normalizeRef (server : String) : String :=
  jsToLower (if lowerStartsWith "whois://".data server.data
    then String.mk (server.data.drop 8) else server)

/-- Effective hop limit: `Math.max(0, opts?.maxWhoisReferralHops ?? 2)`. -/
def effMaxHops (mh : Option Int) : Nat :=
  (max 0 (mh.getD 2)).toNat

/-- Loop body of `collectWhoisReferralChain`, with the remaining hop budget as
fuel.  The WHOIS network is the environment `env : String → Option String`
(server name to response text, `none` for a thrown transport error).  Returns
the adopted results and the list of servers additionally queried (including
failed or discarded attempts).  The JS `!next` guard treats an empty captured
referral as absent. -/
def collectLoop (env : String → Option String) :
    Nat → List String → WhoisQueryResult → List WhoisQueryResult →
    List WhoisQueryResult × List String
  | 0, _, _, results => (results, [])
  | fuel + 1, visited, current, results =>
    match extractWhoisReferral current.text with
    | none => (results, [])
    | some next =>
      if next.data.isEmpty then (results, [])
      else if visited.contains (normalizeRef next) then (results, [])
      else
        match env next with
        | none => (results, [next])
        | some t =>
          if isWhoisAvailable current.text = false ∧ isWhoisAvailable t = true then
            (results, [next])
          else
            let res : WhoisQueryResult := ⟨next, t⟩
            let rec_ := collectLoop env fuel (normalizeRef next :: visited) res (results ++ [res])
            (rec_.1, next :: rec_.2)

/-- Model of `collectWhoisReferralChain` (`src/whois/referral.ts`).  The first
component is `none` when the initial query throws (the exception propagates to
the caller); the second component lists every server actually queried. -/
def collectWhoisReferralChain (env : String → Option String) (initialServer : String)
    (followReferral : Bool) (mh : Option Int) :
    Option (List WhoisQueryResult) × List String :=
  match env initialServer with
  | none => (none, [initialServer])
  | some t =>
    if followReferral = false ∨ effMaxHops mh = 0 then (some [⟨initialServer, t⟩], [initialServer])
    else
      (some (collectLoop env (effMaxHops mh) [normalizeRef initialServer]
          ⟨initialServer, t⟩ [⟨initialServer, t⟩]).1,
        initialServer :: (collectLoop env (effMaxHops mh) [normalizeRef initialServer]
          ⟨initialServer, t⟩ [⟨initialServer, t⟩]).2)

/-- Loop body of `followWhoisReferrals`, which adopts only the latest response. -/
def followLoop (env : String → Option String) :
    Nat → List String → WhoisQueryResult → WhoisQueryResult × List String
  | 0, _, current => (current, [])
  | fuel + 1, visited, current =>
    match extractWhoisReferral current.text with
    | none => (current, [])
    | some next =>
      if next.data.isEmpty then (current, [])
      else if visited.contains (normalizeRef next) then (current, [])
      else
        match env next with
        | none => (current, [next])
        | some t =>
          if isWhoisAvailable current.text = false ∧ isWhoisAvailable t = true then
            (current, [next])
          else
            let rec_ := followLoop env fuel (normalizeRef next :: visited) ⟨next, t⟩
            (rec_.1, next :: rec_.2)

/-- Model of `followWhoisReferrals` (`src/whois/referral.ts`). -/
def followWhoisReferrals (env : String → Option String) (initialServer : String)
    (followReferral : Bool) (mh : Option Int) :
    Option WhoisQueryResult × List String :=
  match env initialServer with
  | none => (none, [initialServer])
  | some t =>
    if followReferral = false ∨ effMaxHops mh = 0 then (some ⟨initialServer, t⟩, [initialServer])
    else
      (some (followLoop env (effMaxHops mh) [normalizeRef initialServer] ⟨initialServer, t⟩).1,
        initialServer :: (followLoop env (effMaxHops mh) [normalizeRef initialServer]
          ⟨initialServer, t⟩).2)

/-! ### Dates (`src/lib/dates.ts` and the ECMAScript `Date` primitives)

`toISO` parses the structured WHOIS/RDAP date formats listed in the source
with explicit regexes and converts through `Date.UTC`/`toISOString`.  The
Gregorian arithmetic below implements those ECMAScript primitives exactly
(including month/day rollover, the year 0-99 → 1900-1999 rule of `Date.UTC`,
the ±8.64e15 ms `TimeClip` range and expanded-year ISO formatting).  The final
fallback of `toISO` delegates to the host engine's generic `new Date(string)`
parser, which is implementation-defined beyond these formats; it is modelled
as failing.  No theorem below depends on a parsed date value. -/

/-- Days since 1970-01-01 of the civil date `(y, m, d)` with `m ∈ [1,12]`
(`d` may lie outside the month and extends linearly, as `Date.UTC` rolls over). -/
def daysFromCivil (y m d : Int) : Int :=
  let y' := if m ≤ 2 then y - 1 else y
  let era := y'.fdiv 400
  let yoe := y' - era * 400
  let mp := if m > 2 then m - 3 else m + 9
  let doy := (153 * mp + 2).fdiv 5 + (d - 1)
  let doe := yoe * 365 + yoe.fdiv 4 - yoe.fdiv 100 + doy
  era * 146097 + doe - 719468

/-- Civil date from days since 1970-01-01 (inverse of `daysFromCivil`). -/
def civilFromDays (z : Int) : Int × Int × Int :=
  let z' := z + 719468
  let era := z'.fdiv 146097
  let doe := z' - era * 146097
  let yoe := (doe - doe.fdiv 1460 + doe.fdiv 36524 - doe.fdiv 146096).fdiv 365
  let y := yoe + era * 400
  let doy := doe - (365 * yoe + yoe.fdiv 4 - yoe.fdiv 100)
  let mp := (5 * doy + 2).fdiv 153
  let d := doy - (153 * mp + 2).fdiv 5 + 1
  let m := if mp < 10 then mp + 3 else mp - 9
  (if m ≤ 2 then y + 1 else y, m, d)

/-- Milliseconds of `Date.UTC(year, monthIndex, day, h, mi, s)` (without `TimeClip`). -/
def jsDateUTCms (year monthIndex day h mi s : Int) : Int :=
  let yy := if 0 ≤ year ∧ year ≤ 99 then year + 1900 else year
  let ym := yy + monthIndex.fdiv 12
  let mm := monthIndex.emod 12
  let days := daysFromCivil ym (mm + 1) 1 + (day - 1)
  days * 86400000 + h * 3600000 + mi * 60000 + s * 1000

/-- ECMAScript `TimeClip` bound: a time value is valid iff `|ms| ≤ 8.64e15`. -/
def msInRange (ms : Int) : Bool :=
  ms ≤ 8640000000000000 ∧ -8640000000000000 ≤ ms

/-- Left-pad the decimal representation of a natural number with zeros. -/
def padNat (w : Nat) (n : Nat) : String :=
  let s := toString n
  String.mk (List.replicate (w - s.data.length) '0') ++ s

/-- ISO-8601 string of a whole-second UTC time value, with milliseconds already
zero and the trailing `.000` stripped (as `toISOString().replace(/\.\d{3}Z$/,"Z")`
in the source); years outside 0–9999 use the expanded `±YYYYYY` form. -/
def isoOfMs (ms : Int) : String :=
  let days := ms.fdiv 86400000
  let rem := (ms - days * 86400000).toNat
  let ymd := civilFromDays days
  let y := ymd.1
  let yearStr :=
    if 0 ≤ y ∧ y ≤ 9999 then padNat 4 y.toNat
    else if y > 9999 then "+" ++ padNat 6 y.toNat
    else "-" ++ padNat 6 (-y).toNat
  yearStr ++ "-" ++ padNat 2 ymd.2.1.toNat ++ "-" ++ padNat 2 ymd.2.2.toNat ++
    "T" ++ padNat 2 (rem / 3600000) ++ ":" ++ padNat 2 (rem / 60000 % 60) ++
    ":" ++ padNat 2 (rem / 1000 % 60) ++ "Z"

/-- Decimal digit value of a character, if any. -/
def digitVal (c : Char) : Option Nat :=
  if '0' ≤ c ∧ c ≤ '9' then some (c.toNat - 48) else none

/-- Parse exactly `n` decimal digits from the front of a character list. -/
def parseNDigits : Nat → List Char → Option (Nat × List Char)
  | 0, cs => some (0, cs)
  | _ + 1, [] => none
  | n + 1, c :: cs =>
    match digitVal c with
    | none => none
    | some v =>
      match parseNDigits n cs with
      | none => none
      | some (rest, cs') => some (v * 10 ^ n + rest, cs')

/-- Parse the trailing timezone part `(?:Z|([+-]\d{2})(?::?(\d{2}))?)?$` of the
first two `toISO` formats, returning the offset in milliseconds. -/
def parseTzTail : List Char → Option Int
  | [] => some 0
  | ['Z'] => some 0
  | c :: cs =>
    if c = '+' ∨ c = '-' then
      match parseNDigits 2 cs with
      | none => none
      | some (hh, cs') =>
        let sign : Int := if c = '-' then -1 else 1
        let fin : Option Int :=
          match cs' with
          | [] => some (sign * (hh * 60) * 60000)
          | ':' :: cs'' =>
            match parseNDigits 2 cs'' with
            | some (mm2, []) => some (sign * (hh * 60 + mm2) * 60000)
            | _ => none
          | _ =>
            match parseNDigits 2 cs' with
            | some (mm2, []) => some (sign * (hh * 60 + mm2) * 60000)
            | _ => none
        fin
    else none

/-- Expect one separator character. -/
def expectChar (c : Char) : List Char → Option (List Char)
  | [] => none
  | x :: xs => if x = c then some xs else none

/-- Parse the first two `toISO` formats
`^(\d{4})sep(\d{2})sep(\d{2})[ T](\d{2}):(\d{2}):(\d{2})(tz)?$` (with `sep`
being `-` or `/`), returning the UTC time value in milliseconds. -/
def parseDateTimeFormat (sep : Char) (cs : List Char) : Option Int := do
  let (y, cs) ← parseNDigits 4 cs
  let cs ← expectChar sep cs
  let (mo, cs) ← parseNDigits 2 cs
  let cs ← expectChar sep cs
  let (d, cs) ← parseNDigits 2 cs
  let cs ← match cs with
    | ' ' :: r => some r
    | 'T' :: r => some r
    | _ => none
  let (hh, cs) ← parseNDigits 2 cs
  let cs ← expectChar ':' cs
  let (mi, cs) ← parseNDigits 2 cs
  let cs ← expectChar ':' cs
  let (ss, cs) ← parseNDigits 2 cs
  let off ← parseTzTail cs
  pure (jsDateUTCms y (mo - 1) d hh mi ss - off)

/-- Month map of `parseDateWithRegex` (three-letter English abbreviations). -/
def monthIndex (s : String) : Option Int :=
  match jsToLower s with
  | "jan" => some 0 | "feb" => some 1 | "mar" => some 2 | "apr" => some 3
  | "may" => some 4 | "jun" => some 5 | "jul" => some 6 | "aug" => some 7
  | "sep" => some 8 | "oct" => some 9 | "nov" => some 10 | "dec" => some 11
  | _ => none

/-- ASCII letter test for the `[A-Za-z]{3}` month group. -/
def isAsciiAlpha (c : Char) : Bool :=
  ('a' ≤ c ∧ c ≤ 'z') ∨ ('A' ≤ c ∧ c ≤ 'Z')

/-- Parse `^(\d{2})-([A-Za-z]{3})-(\d{4})$` (e.g. `02-Jan-2023`); an unknown
month abbreviation yields an invalid date and hence no result. -/
def parseDdMmmYyyy (cs : List Char) : Option Int := do
  let (d, cs) ← parseNDigits 2 cs
  let cs ← expectChar '-' cs
  match cs with
  | a :: b :: c :: rest =>
    if isAsciiAlpha a ∧ isAsciiAlpha b ∧ isAsciiAlpha c then do
      let cs ← expectChar '-' rest
      let (y, cs) ← parseNDigits 4 cs
      if cs.isEmpty then do
        let mo ← monthIndex (String.mk [a, b, c])
        pure (jsDateUTCms y mo d 0 0 0)
      else none
    else none
  | _ => none

/-- Parse one or two digits (`\d{1,2}`). -/
def parseOneTwoDigits : List Char → Option (Nat × List Char)
  | [] => none
  | c :: cs =>
    match digitVal c with
    | none => none
    | some v =>
      match cs with
      | c2 :: cs2 =>
        match digitVal c2 with
        | some v2 => some (v * 10 + v2, cs2)
        | none => some (v, cs)
      | [] => some (v, [])

/-- Parse `^([A-Za-z]{3})\s+(\d{1,2})\s+(\d{4})$` (e.g. `Jan 02 2023`). -/
def parseMmmDdYyyy (cs : List Char) : Option Int :=
  match cs with
  | a :: b :: c :: rest =>
    if isAsciiAlpha a ∧ isAsciiAlpha b ∧ isAsciiAlpha c then
      match rest with
      | r :: rs =>
        if isJsWs r then do
          let (d, cs) ← parseOneTwoDigits (dropLeadWs rs)
          let cs ← match cs with
            | w :: ws => if isJsWs w then some (dropLeadWs ws) else none
            | [] => none
          let (y, cs) ← parseNDigits 4 cs
          if cs.isEmpty then do
            let mo ← monthIndex (String.mk [a, b, c])
            pure (jsDateUTCms y mo d 0 0 0)
          else none
        else none
      | [] => none
    else none
  | _ => none

/-- Model of `toISO` (`src/lib/dates.ts`): try the four structured formats in
order, apply `TimeClip`, and format with `toISOString` minus milliseconds.
The host-engine fallback parse is modelled as failing (see the section
comment). -/
def toISO (dateLike : Option String) : Option String :=
  match dateLike with
  | none => none
  | some s =>
    let raw := jsTrim s
    if raw.data.isEmpty then none
    else
      let ms? : Option Int :=
        match parseDateTimeFormat '-' raw.data with
        | some ms => some ms
        | none =>
          match parseDateTimeFormat '/' raw.data with
          | some ms => some ms
          | none =>
            match parseDdMmmYyyy raw.data with
            | some ms => some ms
            | none => parseMmmDdYyyy raw.data
      match ms? with
      | none => none
      | some ms => if msInRange ms then some (isoOfMs ms) else none

/-- Number of days of a month in the proleptic Gregorian calendar. -/
def daysInMonth (y m : Int) : Int :=
  if m = 2 then
    (if y.emod 4 = 0 ∧ (y.emod 100 ≠ 0 ∨ y.emod 400 = 0) then 29 else 28)
  else if m = 4 ∨ m = 6 ∨ m = 9 ∨ m = 11 then 30
  else 31

/-- Field validity for the ISO profile of `Date.parse`. -/
def jsDateFieldsOk (mo d hh mi ss : Nat) (dim : Int) : Bool :=
  1 ≤ mo && mo ≤ 12 && 1 ≤ d && (d : Int) ≤ dim && hh ≤ 23 && mi ≤ 59 && ss ≤ 59

/-- Helper of `jsDateValue`: assemble and clip the time value. -/
def jsDateAssemble (y mo d hh mi ss : Nat) : Option Int :=
  if jsDateFieldsOk mo d hh mi ss (daysInMonth y mo) then
    let ms := daysFromCivil y mo d * 86400000 + (hh : Int) * 3600000 +
      (mi : Int) * 60000 + (ss : Int) * 1000
    if msInRange ms then some ms else none
  else none

/-- ECMAScript `Date.parse` on the ISO profile `YYYY-MM-DDTHH:MM:SSZ` that
`toISO` emits (the only shape that reaches the record merger's date
comparisons); out-of-range fields make the string invalid.  Other inputs are
implementation-defined and modelled as invalid. -/
def jsDateValue (s : String) : Option Int := do
  let cs := s.data
  let (y, cs) ← parseNDigits 4 cs
  let cs ← expectChar '-' cs
  let (mo, cs) ← parseNDigits 2 cs
  let cs ← expectChar '-' cs
  let (d, cs) ← parseNDigits 2 cs
  let cs ← expectChar 'T' cs
  let (hh, cs) ← parseNDigits 2 cs
  let cs ← expectChar ':' cs
  let (mi, cs) ← parseNDigits 2 cs
  let cs ← expectChar ':' cs
  let (ss, cs) ← parseNDigits 2 cs
  let cs ← expectChar 'Z' cs
  if cs.isEmpty then jsDateAssemble y mo d hh mi ss else none

/-! ### The normalized record types (`src/types.ts`) -/

/-- `RegistrarInfo` of `src/types.ts`. -/
structure RegistrarInfo where
  name : Option String := none
  ianaId : Option String := none
  url : Option String := none
  email : Option String := none
  phone : Option String := none
deriving DecidableEq, Repr

/-- `Contact` of `src/types.ts`; the role union type is modelled as a string.
The WHOIS normalizer only ever produces plain strings for `email`/`phone`/`fax`. -/
structure Contact where
  type : String
  name : Option String := none
  organization : Option String := none
  email : Option String := none
  phone : Option String := none
  fax : Option String := none
  street : Option (List String) := none
  city : Option String := none
  state : Option String := none
  postalCode : Option String := none
  country : Option String := none
  countryCode : Option String := none
deriving DecidableEq, Repr

/-- `Nameserver` of `src/types.ts`. -/
structure Nameserver where
  host : String
  ipv4 : Option (List String) := none
  ipv6 : Option (List String) := none
deriving DecidableEq, Repr

/-- `StatusEvent` of `src/types.ts`. -/
structure StatusEvent where
  status : String
  description : Option String := none
  raw : Option String := none
deriving DecidableEq, Repr

/-- One DS record of the `dnssec` field. -/
structure DsRecord where
  keyTag : Option Int := none
  algorithm : Option Int := none
  digestType : Option Int := none
  digest : Option String := none
deriving DecidableEq, Repr

/-- The inline `dnssec` object type of `DomainRecord`. -/
structure DnssecInfo where
  enabled : Bool
  dsRecords : Option (List DsRecord) := none
deriving DecidableEq, Repr

/-- `DomainRecord` of `src/types.ts`.  `rawRdap` holds an opaque JSON value in
the source; the WHOIS paths modelled here never set it, and it is carried as an
optional unit. -/
structure DomainRecord where
  domain : String
  tld : String
  isRegistered : Bool
  isIDN : Option Bool := none
  unicodeName : Option String := none
  punycodeName : Option String := none
  registry : Option String := none
  registrar : Option RegistrarInfo := none
  reseller : Option String := none
  statuses : Option (List StatusEvent) := none
  creationDate : Option String := none
  updatedDate : Option String := none
  expirationDate : Option String := none
  deletionDate : Option String := none
  transferLock : Option Bool := none
  dnssec : Option DnssecInfo := none
  nameservers : Option (List Nameserver) := none
  contacts : Option (List Contact) := none
  privacyEnabled : Option Bool := none
  whoisServer : Option String := none
  rdapServers : Option (List String) := none
  rawRdap : Option Unit := none
  rawWhois : Option String := none
  source : String
  warnings : Option (List String) := none
deriving DecidableEq, Repr

/-! ### Key/value parsing of WHOIS text (`parseKeyValueLines`, `src/lib/text.ts`)

The JS `Map` is modelled as an association list in insertion order;
`map.set` on an existing key updates the entry in place, preserving its
position, exactly as a JS `Map` does. -/

/-- Look up a key in the association-list map. -/
def kvGet (m : List (String × List String)) (k : String) : Option (List String) :=
  match m.find? (fun p => p.1 = k) with
  | some p => some p.2
  | none => none

/-- Insert or update a key, preserving the original insertion position. -/
def kvSet : List (String × List String) → String → List String → List (String × List String)
  | [], k, v => [(k, v)]
  | (k', v') :: rest, k, v =>
    if k' = k then (k, v) :: rest else (k', v') :: kvSet rest k v

/-- State of the line scanner: the map built so far and the last key seen
(for continuation lines). -/
def parseKvLine (st : List (String × List String) × Option String) (rawLine : String) :
    List (String × List String) × Option String :=
  let m := st.1
  let lastKey := st.2
  let line := jsTrimEnd rawLine
  if (jsTrim line).data.isEmpty then st
  else
    match bracketKeyValue line with
    | some (key, value) =>
      let list := (kvGet m key).getD []
      (kvSet m key (if value.data.isEmpty then list else list ++ [value]), some key)
    | none =>
      match (line.data.findIdx? (fun c => c = ':')) with
      | some idx =>
        let key := jsToLower (jsTrim (String.mk (line.data.take idx)))
        let value := jsTrim (String.mk (line.data.drop (idx + 1)))
        if key.data.isEmpty then (m, none)
        else
          let list := (kvGet m key).getD []
          (kvSet m key (if value.data.isEmpty then list else list ++ [value]), some key)
      | none =>
        match lastKey with
        | some k =>
          if (match line.data with | c :: _ => isJsWs c | [] => false) then
            let value := jsTrim line
            if value.data.isEmpty then st
            else (kvSet m k (((kvGet m k).getD []) ++ [value]), some k)
          else st
        | none => st
where
  /-- The bracketed form `^\s*\[([^\]]+)\]\s*(.*)$` (e.g. `.jp` responses):
  optional leading whitespace, a nonempty bracketed key, then the rest of the
  line as value. -/
  bracketKeyValue (line : String) : Option (String × String) :=
    match dropLeadWs line.data with
    | '[' :: rest =>
      let inner := rest.takeWhile (fun c => c ≠ ']')
      let after := rest.drop inner.length
      match after with
      | ']' :: tail =>
        if inner.isEmpty then none
        else some (jsToLower (jsTrim (String.mk inner)), jsTrim (String.mk tail))
      | _ => none
    | _ => none

/-- Model of `parseKeyValueLines` (`src/lib/text.ts`). -/
def parseKeyValueLines (text : String) : List (String × List String) :=
  ((jsLines text).foldl parseKvLine ([], none)).1

/-- Model of `anyValue` (`src/whois/normalize.ts`): first value of the first
present, nonempty key. -/
def anyValue (m : List (String × List String)) : List String → Option String
  | [] => none
  | k :: ks =>
    match kvGet m k with
    | some (v :: _) => some v
    | _ => anyValue m ks

/-- Model of `multi` (`src/whois/normalize.ts`): all values of the first
present, nonempty key. -/
def multi (m : List (String × List String)) : List String → Option (List String)
  | [] => none
  | k :: ks =>
    match kvGet m k with
    | some (v :: vs) => some (v :: vs)
    | _ => multi m ks

/-- Privacy keywords of `src/lib/privacy.ts` (`PRIVACY_NAME_KEYWORDS`). -/
def privacyNameKeywords : List String :=
  ["redacted", "privacy", "private", "withheld", "not disclosed", "protected", "protection"]

/-- Model of `isPrivacyName` (`src/lib/privacy.ts`). -/
def isPrivacyName (value : String) : Bool :=
  privacyNameKeywords.any (fun k => containsCI k value)

/-! ### The WHOIS normalizer (`normalizeWhois`, `src/whois/normalize.ts`) -/

/-- First key of the list that is present in the map (JS `||` chaining over
possibly-empty arrays: presence, not non-emptiness, decides). -/
def firstPresent (m : List (String × List String)) : List String → Option (List String)
  | [] => none
  | k :: ks =>
    match kvGet m k with
    | some v => some v
    | none => firstPresent m ks

/-- Shape test `/^\d+\.\d+\.\d+\.\d+$/` for a glue IPv4 address. -/
def isIpv4Shape (s : String) : Bool :=
  let parts := splitOnChar '.' s
  parts.length = 4 ∧ parts.all (fun p => ¬ p.data.isEmpty ∧ p.data.all (fun c => '0' ≤ c ∧ c ≤ '9'))

/-- Shape test `/^[0-9a-f:]+$/i` for a glue IPv6 address (note: a run of bare
digits also passes, as in the source). -/
def isIpv6Shape (s : String) : Bool :=
  ¬ s.data.isEmpty ∧ s.data.all (fun c =>
    ('0' ≤ c ∧ c ≤ '9') ∨ ('a' ≤ asciiLower c ∧ asciiLower c ≤ 'f') ∨ c = ':')

/-- Parse one nameserver line (`"host"`, `"host 192.0.2.1"`, `"host 2001:db8::1"`…). -/
def parseNsLine (line : String) : Option Nameserver :=
  let parts := jsSplitWs line
  let host := jsToLower (parts.headD "")
  if host.data.isEmpty then none
  else
    let rest := parts.tail
    let ipv4 := rest.filter isIpv4Shape
    let ipv6 := (rest.filter (fun p => ¬ isIpv4Shape p)).filter isIpv6Shape
    some { host := host
         , ipv4 := if ipv4.isEmpty then none else some ipv4
         , ipv6 := if ipv6.isEmpty then none else some ipv6 }

/-- Key lists and extraction for one contact role of `collectContacts`. -/
def contactForRole (m : List (String × List String)) (role : String)
    (prefixes : List String) : Option Contact :=
  let nameKeys := prefixes.flatMap (fun p =>
    [p ++ " name", p ++ " contact name", p]
      ++ (if p = "registrant" then ["registrant person"] else [])
      ++ (if p = "owner" then ["owner name"] else []))
  let orgKeys := prefixes.flatMap (fun p =>
    [p ++ " organization", p ++ " organisation", p ++ " org"]
      ++ (if p = "registrant" then ["trading as", "org"] else [])
      ++ (if p = "owner" then ["owner orgname"] else []))
  let emailKeys := prefixes.flatMap (fun p =>
    [p ++ " email", p ++ " contact email", p ++ " e-mail"])
  let phoneKeys := prefixes.flatMap (fun p =>
    [p ++ " phone", p ++ " contact phone", p ++ " telephone"])
  let faxKeys := prefixes.flatMap (fun p => [p ++ " fax", p ++ " facsimile"])
  let streetKeys := prefixes.flatMap (fun p =>
    [p ++ " street", p ++ " address", p ++ "\x27s address"]
      ++ (if p = "owner" then ["owner addr"] else []))
  let cityKeys := prefixes.flatMap (fun p => [p ++ " city"])
  let stateKeys := prefixes.flatMap (fun p =>
    [p ++ " state", p ++ " province", p ++ " state/province"])
  let postalCodeKeys := prefixes.flatMap (fun p =>
    [p ++ " postal code", p ++ " postcode", p ++ " zip"])
  let countryKeys := prefixes.flatMap (fun p => [p ++ " country"])
  let name := anyValue m nameKeys
  let org := anyValue m orgKeys
  let email := anyValue m emailKeys
  let phone := anyValue m phoneKeys
  let fax := anyValue m faxKeys
  let street := multi m streetKeys
  let city := anyValue m cityKeys
  let state := anyValue m stateKeys
  let postalCode := anyValue m postalCodeKeys
  let country := anyValue m countryKeys
  if name.isSome ∨ org.isSome ∨ email.isSome ∨ phone.isSome
      ∨ (street.getD []).length > 0 then
    some { type := role, name := name, organization := org, email := email
         , phone := phone, fax := fax, street := street, city := city
         , state := state, postalCode := postalCode, country := country }
  else none

/-- Model of `collectContacts` (`src/whois/normalize.ts`). -/
def collectContacts (m : List (String × List String)) : Option (List Contact) :=
  let contacts :=
    [ contactForRole m "registrant" ["registrant", "owner", "holder"]
    , contactForRole m "admin" ["admin", "administrative"]
    , contactForRole m "tech" ["tech", "technical"]
    , contactForRole m "billing" ["billing"]
    , contactForRole m "abuse" ["abuse"]
    ].filterMap id
  if contacts.isEmpty then none else some contacts

/-- Model of `normalizeWhois` (`src/whois/normalize.ts`): convert raw WHOIS
text into the normalized `DomainRecord`.  The `uniq` the source applies to the
freshly-constructed nameserver objects deduplicates by JS `Set` *reference*
identity, which never identifies two distinct freshly-mapped objects, so it is
the identity here — duplicate hosts survive. -/
def normalizeWhois (domain tld whoisText : String) (whoisServer : Option String)
    (includeRaw : Bool) : DomainRecord :=
  let m := parseKeyValueLines whoisText
  let creationDate := anyValue m
    [ "creation date", "created on", "created", "registered on", "registered"
    , "registration date", "domain registration date", "domain create date"
    , "domain name commencement date", "registration time", "domain record activated"
    , "domain registered", "registered date", "assigned" ]
  let updatedDate := anyValue m
    [ "updated date", "updated", "last updated", "last updated on", "last update"
    , "last-update", "last modified", "modified", "changed", "modification date"
    , "domain record last updated" ]
  let expirationDate := anyValue m
    [ "registry expiry date", "registry expiration date"
    , "registrar registration expiration date", "registrar registration expiry date"
    , "registrar expiration date", "registrar expiry date", "expiry date"
    , "expiration date", "expiry", "expire date", "expire", "expired", "expires on"
    , "expires", "expiration time", "domain expires", "paid-till", "renewal date"
    , "validity", "record will expire on" ]
  let regName := anyValue m
    [ "registrar", "registrar name", "registrar organization"
    , "registrar organization name", "sponsoring registrar", "organisation"
    , "record maintained by" ]
  let regIanaId := anyValue m
    [ "registrar iana id", "sponsoring registrar iana id", "iana id" ]
  let regUrl := anyValue m
    [ "registrar url", "registrar website", "registrar web", "url of the registrar"
    , "referrer" ]
  let regAbuseEmail := anyValue m
    [ "registrar abuse contact email", "abuse contact email" ]
  let regAbusePhone := anyValue m
    [ "registrar abuse contact phone", "abuse contact phone" ]
  let registrar : Option RegistrarInfo :=
    if regName.isNone ∧ regIanaId.isNone ∧ regUrl.isNone ∧ regAbuseEmail.isNone
        ∧ regAbusePhone.isNone then none
    else some { name := regName, ianaId := regIanaId, url := regUrl
              , email := regAbuseEmail, phone := regAbusePhone }
  let statusLines := (firstPresent m
    [ "domain status", "status", "flags", "state", "registration status"
    , "eppstatus" ]).getD []
  let statuses : Option (List StatusEvent) :=
    if statusLines.isEmpty then none
    else some (statusLines.map (fun line =>
      { status := (jsSplitWs line).headD "", raw := some line }))
  let nsLines : List String :=
    ((kvGet m "name server").getD []) ++ ((kvGet m "nameserver").getD [])
      ++ ((kvGet m "name servers").getD []) ++ ((kvGet m "nserver").getD [])
      ++ ((kvGet m "name server information").getD []) ++ ((kvGet m "dns").getD [])
      ++ ((kvGet m "hostname").getD []) ++ ((kvGet m "domain nameservers").getD [])
      ++ ((kvGet m "domain servers in listed order").getD [])
      ++ ((kvGet m "domain servers").getD []) ++ ((kvGet m "name servers dns").getD [])
      ++ ((kvGet m "ns 1").getD []) ++ ((kvGet m "ns 2").getD [])
      ++ ((kvGet m "ns 3").getD []) ++ ((kvGet m "ns 4").getD [])
  let nameservers : Option (List Nameserver) :=
    if nsLines.isEmpty then none
    else some (((nsLines.map jsTrim).filter (fun l => ¬ l.data.isEmpty)).filterMap parseNsLine)
  let contacts := collectContacts m
  let registrant := (contacts.getD []).find? (fun c => c.type = "registrant")
  let privacyEnabled :=
    match registrant with
    | none => false
    | some r => ([r.name, r.organization].filterMap id).any isPrivacyName
  let dnssecRaw := jsToLower (((kvGet m "dnssec").getD []).headD "")
  let dnssec : Option DnssecInfo :=
    if dnssecRaw.data.isEmpty then none
    else some { enabled := containsCI "signed" dnssecRaw ∨ containsCI "yes" dnssecRaw
                  ∨ containsCI "true" dnssecRaw }
  let transferLock := (statuses.getD []).any (fun s => containsCI "transferprohibited" s.status)
  { domain := domain
  , tld := tld
  , isRegistered := !isAvailableByWhois whoisText
  , isIDN := some (lowerStartsWith "xn--".data domain.data ∨ containsCI ".xn--" domain)
  , unicodeName := none
  , punycodeName := none
  , registry := none
  , registrar := registrar
  , reseller := anyValue m ["reseller"]
  , statuses := statuses
  , creationDate := toISO creationDate
  , updatedDate := toISO updatedDate
  , expirationDate := toISO expirationDate
  , deletionDate := none
  , transferLock := some transferLock
  , dnssec := dnssec
  , nameservers := nameservers
  , contacts := contacts
  , privacyEnabled := if privacyEnabled then some true else none
  , whoisServer := whoisServer
  , rdapServers := none
  , rawRdap := none
  , rawWhois := if includeRaw then some whoisText else none
  , source := "whois"
  , warnings := none }

/-! ### The record merger (`src/whois/merge.ts`) -/

/-- Model of `dedupeStatuses`: union keyed by lower-cased status token,
skipping empty keys, first occurrence wins. -/
def dedupeStatuses (a b : Option (List StatusEvent)) : Option (List StatusEvent) :=
  let list := (a.getD []) ++ (b.getD [])
  let out := go list []
  if out.isEmpty then none else some out
where
  go : List StatusEvent → List String → List StatusEvent
    | [], _ => []
    | s :: rest, seen =>
      let key := jsToLower s.status
      if key.data.isEmpty ∨ seen.contains key then go rest seen
      else s :: go rest (key :: seen)

/-- Model of `dedupeNameservers`: a JS `Map` keyed by lower-cased host;
on a duplicate host the glue address lists are unioned (`uniq` of the
concatenation) and the updated entry keeps its original map position. -/
def dedupeNameservers (a b : Option (List Nameserver)) : Option (List Nameserver) :=
  let list := (a.getD []) ++ (b.getD [])
  let m := list.foldl step []
  let out := m.map Prod.snd
  if out.isEmpty then none else some out
where
  step (m : List (String × Nameserver)) (ns : Nameserver) : List (String × Nameserver) :=
    match m.find? (fun p => p.1 = jsToLower ns.host) with
    | none => kvSetNs m (jsToLower ns.host) { ns with host := jsToLower ns.host }
    | some p =>
      kvSetNs m (jsToLower ns.host)
        { host := jsToLower ns.host
        , ipv4 := some (uniqList ((p.2.ipv4.getD []) ++ (ns.ipv4.getD [])))
        , ipv6 := some (uniqList ((p.2.ipv6.getD []) ++ (ns.ipv6.getD []))) }
  kvSetNs : List (String × Nameserver) → String → Nameserver → List (String × Nameserver)
    | [], k, v => [(k, v)]
    | (k', v') :: rest, k, v =>
      if k' = k then (k, v) :: rest else (k', v') :: kvSetNs rest k v

/-- Model of `dedupeContacts`: union keyed by
`type + "|" + lower(organization || name || email || "")`. -/
def dedupeContacts (a b : Option (List Contact)) : Option (List Contact) :=
  let list := (a.getD []) ++ (b.getD [])
  let out := go list []
  if out.isEmpty then none else some out
where
  keyOf (c : Contact) : String :=
    let ident := ((c.organization.filter (fun s => ¬ s.data.isEmpty)).orElse (fun _ =>
      (c.name.filter (fun s => ¬ s.data.isEmpty)).orElse (fun _ =>
        c.email.filter (fun s => ¬ s.data.isEmpty)))).getD ""
    c.type ++ "|" ++ jsToLower ident
  go : List Contact → List String → List Contact
    | [], _ => []
    | c :: rest, seen =>
      let key := keyOf c
      if seen.contains key then go rest seen
      else c :: go rest (key :: seen)

/-- Model of `preferEarliestIso`: keep the ISO string whose `Date` value is
not later; an unparsable date makes the comparison false and selects `b`. -/
def preferEarliestIso (a b : Option String) : Option String :=
  match a, b with
  | none, b => b
  | some a, none => some a
  | some a, some b =>
    match jsDateValue a, jsDateValue b with
    | some x, some y => if x ≤ y then some a else some b
    | _, _ => some b

/-- Model of `preferLatestIso`. -/
def preferLatestIso (a b : Option String) : Option String :=
  match a, b with
  | none, b => b
  | some a, none => some a
  | some a, some b =>
    match jsDateValue a, jsDateValue b with
    | some x, some y => if x ≥ y then some a else some b
    | _, _ => some b

/-- One iteration of the `mergeWhoisRecords` loop. -/
def mergeStep (merged cur : DomainRecord) : DomainRecord :=
  { merged with
    isRegistered := merged.isRegistered || cur.isRegistered
  , registry := merged.registry.orElse (fun _ => cur.registry)
  , registrar := merged.registrar.orElse (fun _ => cur.registrar)
  , reseller := merged.reseller.orElse (fun _ => cur.reseller)
  , statuses := dedupeStatuses merged.statuses cur.statuses
  , creationDate := preferEarliestIso merged.creationDate cur.creationDate
  , updatedDate := preferLatestIso merged.updatedDate cur.updatedDate
  , expirationDate := preferLatestIso merged.expirationDate cur.expirationDate
  , deletionDate := merged.deletionDate.orElse (fun _ => cur.deletionDate)
  , transferLock := some ((merged.transferLock.getD false) || (cur.transferLock.getD false))
  , dnssec := merged.dnssec.orElse (fun _ => cur.dnssec)
  , nameservers := dedupeNameservers merged.nameservers cur.nameservers
  , contacts := dedupeContacts merged.contacts cur.contacts
  , privacyEnabled := merged.privacyEnabled.orElse (fun _ => cur.privacyEnabled)
  , whoisServer := cur.whoisServer.orElse (fun _ => merged.whoisServer)
  , rawWhois := cur.rawWhois.orElse (fun _ => merged.rawWhois) }

/-- Model of `mergeWhoisRecords` (`src/whois/merge.ts`): start from the base
record and fold the others in with the conservative merge policy. -/
def mergeWhoisRecords (base : DomainRecord) (others : List DomainRecord) : DomainRecord :=
  others.foldl mergeStep base

/-- The coalescing step of `lookup` (`src/index.ts`, lines 121–130): normalize
every chain element, then merge the rest into the first; a single-element
chain is returned as is, and an empty chain yields the `"No WHOIS data
retrieved"` failure (modelled as `none`). -/
def mergeChainRecords (records : List DomainRecord) : Option DomainRecord :=
  match records with
  | [] => none
  | first :: rest => some (if rest.isEmpty then first else mergeWhoisRecords first rest)

/-! ### Bootstrap resolution (`getRdapBaseUrlsForTld`, `src/rdap/bootstrap.ts`)

Caller-supplied bootstrap documents arrive as arbitrary JS values, so a small
JS value model is needed to express the validation.  Thrown `Error`s are the
`Except.error` case (carrying the message).  The fetched path is abstracted to
its outcome: `none` models any HTTP failure, network/timeout error or JSON
parse error, all of which the source turns into an empty result. -/

/-- A JS value, as far as the bootstrap code can observe one. -/
inductive Js where
  | undef
  | null
  | bool (b : Bool)
  | num (n : Int)
  | str (s : String)
  | arr (xs : List Js)
  | obj (fields : List (String × Js))

/-- JS truthiness of the modelled values. -/
def jsTruthy : Js → Bool
  | .undef => false
  | .null => false
  | .bool b => b
  | .num n => ¬ n = 0
  | .str s => ¬ s.data.isEmpty
  | .arr _ => true
  | .obj _ => true

/-- JS `typeof v === "object"` for the modelled values. -/
def jsIsObjectType : Js → Bool
  | .null => true
  | .arr _ => true
  | .obj _ => true
  | _ => false

/-- Property access `v.name` (arrays and primitives have none of the
properties the bootstrap code reads). -/
def jsGet (v : Js) (name : String) : Js :=
  match v with
  | .obj fields =>
    match fields.find? (fun p => p.1 = name) with
    | some p => p.2
    | none => .undef
  | _ => (.undef)

/-- Index access `v[i]`. -/
def jsIndex (v : Js) (i : Nat) : Js :=
  match v with
  | .arr xs => (xs.drop i).headD .undef
  | .str s =>
    match s.data.drop i with
    | [] => .undef
    | c :: _ => .str (String.mk [c])
  | _ => (.undef)

/-- Array test `Array.isArray(v)`. -/
def jsIsArray : Js → Bool
  | .arr _ => true
  | _ => false

/-- Decide whether one `services` entry passes the structural validation
(`Array.isArray(svc) && svc.length >= 2 && Array.isArray(svc[0]) && Array.isArray(svc[1])`). -/
def goodServiceEntry (svc : Js) : Bool :=
  match svc with
  | .arr xs => 2 ≤ xs.length ∧ jsIsArray (jsIndex svc 0) ∧ jsIsArray (jsIndex svc 1)
  | _ => false

/-- The `forEach` validation of caller-supplied `services` entries; throws on
the first malformed entry, with its index in the message. -/
def validateServices (idx : Nat) : List Js → Except String Unit
  | [] => .ok ()
  | svc :: rest =>
    if goodServiceEntry svc then validateServices (idx + 1) rest
    else .error ("Invalid customBootstrapData: services[" ++ toString idx ++
      "] must be a tuple of [string[], string[]].")

/-- JS `xs.map(x => x.toLowerCase())` over a `services` TLD list: requires an
array of strings (a non-string element would throw a `TypeError`). -/
def jsLowerStrings : List Js → Except String (List String)
  | [] => .ok []
  | .str s :: rest => (jsLowerStrings rest).map (fun t => jsToLower s :: t)
  | _ :: _ => .error "TypeError: x.toLowerCase is not a function"

/-- Iterate `for (const u of urls)` with `u.endsWith("/") ? u : u + "/"`:
requires an iterable of strings; iterating a string yields its one-character
substrings. -/
def jsBaseUrls : Js → Except String (List String)
  | .arr xs => go xs
  | .str s => go (s.data.map (fun c => .str (String.mk [c])))
  | _ => .error "TypeError: urls is not iterable"
where
  go : List Js → Except String (List String)
    | [] => .ok []
    | .str u :: rest =>
      let base := if u.data.reverse.head? = some '/' then u else u ++ "/"
      (go rest).map (fun t => base :: t)
    | _ :: _ => .error "TypeError: u.endsWith is not a function"

/-- The `for (const svc of data.services)` matching loop shared by both paths. -/
def basesLoop (target : String) : List Js → Except String (List String)
  | [] => .ok []
  | svc :: rest =>
    if ¬ jsTruthy (jsIndex svc 0) ∨ ¬ jsTruthy (jsIndex svc 1) then basesLoop target rest
    else do
      let tlds ←
        match jsIndex svc 0 with
        | .arr xs => jsLowerStrings xs
        | _ => Except.error "TypeError: svc[0].map is not a function"
      let adds ← if tlds.contains target then jsBaseUrls (jsIndex svc 1) else .ok []
      let tail ← basesLoop target rest
      pure (adds ++ tail)

/-- Extract the `services` list for iteration; `for … of` over a non-array
(after the fetched path, which is not validated) throws. -/
def jsServicesList : Js → Except String (List Js)
  | .arr xs => .ok xs
  | _ => .error "TypeError: data.services is not iterable"

/-- The structural validation of a caller-supplied bootstrap document
(`src/rdap/bootstrap.ts`, priority 1): must be a truthy object with a
`services` array whose entries are pairs of two arrays; throws otherwise. -/
def validateCustomBootstrapData (provided : Js) : Except String Js :=
  if ¬ jsTruthy provided ∨ ¬ jsIsObjectType provided then
    Except.error
      "Invalid customBootstrapData: expected an object. See BootstrapData type for required structure."
  else if ¬ jsIsArray (jsGet provided "services") then
    Except.error
      "Invalid customBootstrapData: missing or invalid \"services\" array. See BootstrapData type for required structure."
  else
    match validateServices 0
        (match jsGet provided "services" with | .arr xs => xs | _ => []) with
    | .error e => .error e
    | .ok _ => .ok provided

/-- The TLD-matching pass over a resolved bootstrap document. -/
def basesFromData (tld : String) (data : Js) : Except String (List String) := do
  let svcs ← jsServicesList (jsGet data "services")
  let bases ← basesLoop (jsToLower tld) svcs
  pure (uniqList bases)

/-- Model of `getRdapBaseUrlsForTld` (`src/rdap/bootstrap.ts`).
`custom = some v` models `"customBootstrapData" in options` (the property may
be present holding any value, including `undefined`); `fetched` is the outcome
of fetching and JSON-parsing the bootstrap URL, with `none` for any HTTP,
network, timeout or parse failure (each of which makes the source return an
empty list). -/
def getRdapBaseUrlsForTld (tld : String) (custom : Option Js) (fetched : Option Js) :
    Except String (List String) :=
  match custom with
  | some provided =>
    match validateCustomBootstrapData provided with
    | .error e => .error e
    | .ok data => basesFromData tld data
  | none =>
    match fetched with
    | none => .ok []
    | some data => basesFromData tld data

/-! ### RDAP fetch, link following and the orchestrator (`src/rdap/client.ts`,
`src/rdap/merge.ts`, `src/index.ts`)

The HTTP layer is an environment: the RDAP domain fetch for a base URL is the
`Option (HttpResp α)` that base resolves to (`none` for a network/timeout
failure), where `α` is the RDAP document type.  The link follower and RDAP
normalizer work on documents only through the operations the orchestrator
needs, so they are parameters (`RdapFollowEnv`, `LookupEnv.normalizeRdap`);
the theorems hold for every instantiation, in particular the real one. -/

/-- An HTTP response as `fetchRdapDomain` observes it: status, body text, and
the JSON value if the body parses. -/
structure HttpResp (α : Type) where
  status : Nat
  bodyText : String
  json : Option α

/-- Outcome of `fetchRdapDomain`: the 404 verdict, a parsed document, or a
thrown error with its message. -/
inductive FetchOutcome (α : Type) where
  | notFound
  | ok (doc : α)
  | err (msg : String)
deriving DecidableEq, Repr

/-- Model of `fetchRdapDomain` (`src/rdap/client.ts`) applied to the response
of one base URL: HTTP 404 → `notFound`; any other non-2xx status → an error
carrying the status code and the body truncated to 500 characters; 2xx → the
parsed JSON (a parse failure throws).  A `none` response models a thrown
network or timeout error, whose message is abstracted. -/
def fetchRdapDomain (resp : Option (HttpResp α)) : FetchOutcome α :=
  match resp with
  | none => .err "RDAP request failed"
  | some r =>
    if r.status = 404 then .notFound
    else if ¬ (200 ≤ r.status ∧ r.status ≤ 299) then
      .err ("RDAP " ++ toString r.status ++ ": " ++ jsTake 500 r.bodyText)
    else
      match r.json with
      | some j => .ok j
      | none => .err "RDAP JSON parse failed"

/-- Environment of the RDAP link follower (`src/rdap/merge.ts`): link
extraction (with the configured `rel` allow-list applied), the document name
fields (as `String(json?.ldhName ?? "")` does), per-URL fetching, and the
additive document merge. -/
structure RdapFollowEnv (α : Type) where
  extractRelatedLinks : α → List String
  ldhName : α → String
  unicodeName : α → String
  fetchUrl : String → Option α
  mergeRdapDocs : α → List α → α

/-- The inner `for (const url of nextBatch)` loop: each URL is added to the
visited set before its fetch; failures are skipped silently; a fetched
document is recorded in the tried list and kept only if its own name fields
match the queried domain case-insensitively. -/
def rdapFetchBatch (env : RdapFollowEnv α) (domain : String) :
    List String → List String → List String × List String × List α
  | [], visited => (visited, [], [])
  | url :: rest, visited =>
    let visited' := url :: visited
    match env.fetchUrl url with
    | none => rdapFetchBatch env domain rest visited'
    | some j =>
      let r := rdapFetchBatch env domain rest visited'
      let ldh := jsToLower (env.ldhName j)
      let uni := jsToLower (env.unicodeName j)
      let discard :=
        (¬ ldh.data.isEmpty ∧ ¬ ldh = jsToLower domain) ∨
          (¬ uni.data.isEmpty ∧ ¬ uni = jsToLower domain)
      (r.1, url :: r.2.1, if discard then r.2.2 else j :: r.2.2)

/-- The hop loop of `fetchAndMergeRdapRelated`, with the hop budget as fuel;
the third component counts the hops actually performed. -/
def rdapFollowLoop (env : RdapFollowEnv α) (domain : String) :
    Nat → List String → α → List String → α × List String × Nat
  | 0, _, current, tried => (current, tried, 0)
  | fuel + 1, visited, current, tried =>
    let links := env.extractRelatedLinks current
    let nextBatch := links.filter (fun u => ¬ visited.contains u)
    if nextBatch.isEmpty then (current, tried, 0)
    else
      let b := rdapFetchBatch env domain nextBatch visited
      if b.2.2.isEmpty then (current, tried ++ b.2.1, 0)
      else
        let r := rdapFollowLoop env domain fuel b.1
          (env.mergeRdapDocs current b.2.2) (tried ++ b.2.1)
        (r.1, r.2.1, r.2.2 + 1)

/-- Model of `fetchAndMergeRdapRelated` (`src/rdap/merge.ts`): follow related
links up to `Math.max(0, opts?.maxRdapLinkHops ?? 2)` hops unless disabled. -/
def fetchAndMergeRdapRelated (env : RdapFollowEnv α) (domain : String) (baseDoc : α)
    (followLinks : Bool) (mh : Option Int) : α × List String × Nat :=
  if followLinks = false then (baseDoc, [], 0)
  else if effMaxHops mh = 0 then (baseDoc, [], 0)
  else rdapFollowLoop env domain (effMaxHops mh) [] baseDoc []

/-- Find the first `/https?:\/\/\S+/i` match in a line, preserving its
original spelling. -/
def findHttpUrl : List Char → Option String
  | [] => none
  | c :: cs =>
    let here := c :: cs
    let schemeLen : Option Nat :=
      if lowerStartsWith "https://".data here then some 8
      else if lowerStartsWith "http://".data here then some 7
      else none
    match schemeLen with
    | some n =>
      match here.drop n with
      | r :: _ =>
        if ¬ isJsWs r then some (String.mk (here.takeWhile (fun ch => ¬ isJsWs ch)))
        else findHttpUrl cs
      | [] => findHttpUrl cs
    | none => findHttpUrl cs

/-- Model of `parseIanaRegistrationInfoUrl` (`src/whois/discovery.ts`). -/
def parseIanaRegistrationInfoUrl (text : String) : Option String :=
  go (jsLines text)
where
  keyOk (l : List Char) : Bool :=
    ["remarks", "url", "website"].any (fun k =>
      lowerStartsWith k.data l ∧ (dropLeadWs (l.drop k.data.length)).headD ' ' = ':')
  go : List String → Option String
    | [] => none
    | raw :: rest =>
      let line := jsTrim raw
      if keyOk line.data then
        match findHttpUrl line.data with
        | some u => some u
        | none => go rest
      else go rest

/-- The lookup options consumed by the modelled paths (`LookupOptions` of
`src/types.ts`); `followWhoisReferral = true` stands for the `undefined`
default, since the source only compares it with `=== false`. -/
structure LookupOptions where
  whoisOnly : Bool := false
  rdapOnly : Bool := false
  followWhoisReferral : Bool := true
  maxWhoisReferralHops : Option Int := none
  rdapFollowLinks : Bool := true
  maxRdapLinkHops : Option Int := none
  includeRaw : Bool := false

/-- A network-touching operation performed during a lookup, for the trace. -/
inductive NetOp where
  | bootstrap (tld : String)
  | rdap (url : String)
  | whois (server : String)
deriving DecidableEq, Repr

/-- `LookupResult` of `src/types.ts`. -/
structure LookupResult where
  ok : Bool
  record : Option DomainRecord := none
  error : Option String := none
deriving DecidableEq, Repr

/-- Environment of `lookup`: the public-suffix library, the bootstrap
resolver (`Except.error` models its thrown validation errors), the RDAP HTTP
layer keyed by base URL, the link-follower environment, the RDAP normalizer,
IANA WHOIS discovery and the WHOIS network. -/
structure LookupEnv (α : Type) where
  publicSuffix : String → Option String
  bases : String → Except String (List String)
  http : String → Option (HttpResp α)
  follow : RdapFollowEnv α
  normalizeRdap : String → String → α → List String → Bool → DomainRecord
  ianaWhoisServer : String → Option String
  ianaText : String → Option String
  whois : String → Option String

/-- The `for (const base of bases)` loop of `lookup`: try each base URL; a 404
verdict or a parsed document returns immediately, any error moves on.  Returns
`none` with the trace when every base failed. -/
def tryRdapBases (env : LookupEnv α) (domain tld : String) (opts : LookupOptions) :
    List String → List String → Option LookupResult × List NetOp
  | [], _ => (none, [])
  | base :: rest, tried =>
    let tried' := tried ++ [base]
    match fetchRdapDomain (env.http base) with
    | .notFound =>
      (some { ok := true
            , record := some { domain := domain, tld := tld, isRegistered := false
                             , rdapServers := some tried', source := "rdap" } },
        [.rdap base])
    | .ok j =>
      let r := fetchAndMergeRdapRelated env.follow domain j opts.rdapFollowLinks opts.maxRdapLinkHops
      let recd := env.normalizeRdap domain tld r.1 (tried' ++ r.2.1) opts.includeRaw
      (some { ok := true, record := some recd }, [.rdap base] ++ r.2.1.map .rdap)
    | .err _ =>
      let k := tryRdapBases env domain tld opts rest tried'
      (k.1, .rdap base :: k.2)

/-- The WHOIS fallback section of `lookup` (from the `ianaWhoisServerForTld`
call on), with the trace accumulated so far. -/
def whoisPath (env : LookupEnv α) (domain tld : String) (opts : LookupOptions)
    (ops : List NetOp) : LookupResult × List NetOp :=
  match env.ianaWhoisServer tld with
  | none =>
    let regUrl :=
      match env.ianaText tld with
      | some t => parseIanaRegistrationInfoUrl t
      | none => none
    let hint :=
      match regUrl with
      | some u => " See registration info at " ++ u ++ "."
      | none => ""
    ({ ok := false
     , error := some ("No WHOIS server discovered for TLD \x27" ++ tld ++
         "\x27. This registry may not publish public WHOIS over port 43." ++ hint) },
      ops ++ [.whois "whois.iana.org", .whois "whois.iana.org"])
  | some server =>
    let c := collectWhoisReferralChain env.whois server opts.followWhoisReferral
      opts.maxWhoisReferralHops
    let ops' := ops ++ [.whois "whois.iana.org"] ++ c.2.map .whois
    match c.1 with
    | none => ({ ok := false, error := some "WHOIS query failed" }, ops')
    | some chain =>
      if chain.isEmpty then
        let f := followWhoisReferrals env.whois server opts.followWhoisReferral
          opts.maxWhoisReferralHops
        let ops'' := ops' ++ f.2.map .whois
        match f.1 with
        | none => ({ ok := false, error := some "WHOIS query failed" }, ops'')
        | some res =>
          ({ ok := true
           , record := some (normalizeWhois domain tld res.text (some res.serverQueried)
               opts.includeRaw) }, ops'')
      else
        let records := chain.map (fun r =>
          normalizeWhois domain tld r.text (some r.serverQueried) opts.includeRaw)
        match mergeChainRecords records with
        | none => ({ ok := false, error := some "No WHOIS data retrieved" }, ops')
        | some rec => ({ ok := true, record := some rec }, ops')

/-- The RDAP section of `lookup` once the base URLs are known, falling back to
WHOIS (or the `rdapOnly` failure) when every base fails. -/
def rdapThenWhois (env : LookupEnv α) (domain tld : String) (opts : LookupOptions)
    (bases : List String) (ops : List NetOp) : LookupResult × List NetOp :=
  let k := tryRdapBases env domain tld opts bases []
  match k.1 with
  | some res => (res, ops ++ k.2)
  | none =>
    if opts.rdapOnly then
      ({ ok := false
       , error := some ("RDAP not available or failed for TLD \x27" ++ tld ++
           "\x27. Many TLDs do not publish RDAP; try WHOIS fallback (omit rdapOnly).") },
        ops ++ k.2)
    else whoisPath env domain tld opts (ops ++ k.2)

/-- Model of `lookup` (`src/index.ts`): domain-shape guard, TLD extraction,
the RDAP path (with the registry-label bootstrap retry for multi-label public
suffixes) and the WHOIS fallback.  Besides the result, the model returns the
trace of network operations performed, in order. -/
def lookup (env : LookupEnv α) (domain : String) (opts : LookupOptions) :
    LookupResult × List NetOp :=
  if ¬ isLikelyDomain domain then
    ({ ok := false, error := some "Input does not look like a domain" }, [])
  else
    match env.publicSuffix domain with
    | none => ({ ok := false, error := some "Invalid TLD" }, [])
    | some tld =>
      if tld.data.isEmpty then ({ ok := false, error := some "Invalid TLD" }, [])
      else if opts.whoisOnly then whoisPath env domain tld opts []
      else
        match env.bases tld with
        | .error e => ({ ok := false, error := some e }, [.bootstrap tld])
        | .ok bases0 =>
          if bases0.isEmpty ∧ tld.data.contains '.' then
            let registryTld := (splitOnChar '.' tld).reverse.headD tld
            match env.bases registryTld with
            | .error e => ({ ok := false, error := some e }, [.bootstrap tld, .bootstrap registryTld])
            | .ok bases1 =>
              rdapThenWhois env domain tld opts bases1 [.bootstrap tld, .bootstrap registryTld]
          else rdapThenWhois env domain tld opts bases0 [.bootstrap tld]


/-! ### Concrete fixtures used by the closed theorems below -/

/-- An upstream WHOIS response that the walker's availability list classifies
as registered but the normalizer's longer list classifies as available
(`status: free`), with a registrar referral line. -/
def contradictionUpstreamText : String :=
  "status: free\nRegistrar WHOIS Server: whois.down.example"

/-- A downstream response that both availability lists classify as available. -/
def contradictionDownstreamText : String :=
  "No match for example.com"

/-- A two-server WHOIS network exhibiting the upstream/downstream
contradiction. -/
def contradictionEnv : String → Option String := fun srv =>
  if srv = "whois.nic.example" then some contradictionUpstreamText
  else if srv = "whois.down.example" then some contradictionDownstreamText
  else none

/-- An upstream response registered under both availability lists, with a
registrar referral line. -/
def cleanUpstreamText : String :=
  "Domain Name: EXAMPLE.COM\nRegistrar WHOIS Server: whois.down2.example"

/-- A WHOIS network whose downstream server claims availability. -/
def cleanDownstreamEnv : String → Option String := fun srv =>
  if srv = "whois.down2.example" then some "No match for example.com" else none

/-- A WHOIS network with a single server and no referral. -/
def simpleChainEnv : String → Option String := fun srv =>
  if srv = "whois.verisign.example" then some "Domain Name: EXAMPLE.COM" else none


/-- An RDAP lookup environment whose first base URL fails with HTTP 500 and
whose second returns HTTP 404; WHOIS discovery would fail if it were reached. -/
def rdapNotFoundEnv : LookupEnv Unit :=
  { publicSuffix := fun _ => some "com"
  , bases := fun _ => Except.ok ["https://rdap.bad.example/", "https://rdap.good.example/"]
  , http := fun u =>
      if u = "https://rdap.bad.example/" then
        some { status := 500, bodyText := "boom", json := none }
      else if u = "https://rdap.good.example/" then
        some { status := 404, bodyText := "", json := none }
      else none
  , follow :=
      { extractRelatedLinks := fun _ => []
      , ldhName := fun _ => ""
      , unicodeName := fun _ => ""
      , fetchUrl := fun _ => none
      , mergeRdapDocs := fun doc _ => doc }
  , normalizeRdap := fun dom tld _ servers _ =>
      { domain := dom, tld := tld, isRegistered := true
      , rdapServers := some servers, source := "rdap" }
  , ianaWhoisServer := fun _ => none
  , ianaText := fun _ => none
  , whois := fun _ => none }

/-- A lookup environment that is never consulted (used with inputs failing the
domain-shape guard). -/
def guardEnv : LookupEnv Unit :=
  rdapNotFoundEnv

/-- The invariant of the `dedupeNameservers` fold: distinct keys, every value
hosting its own key, and keys fixed by lower-casing. -/
def NsMapInv (m : List (String × Nameserver)) : Prop :=
  (m.map Prod.fst).Nodup ∧ (∀ p ∈ m, p.2.host = p.1) ∧
    (∀ p ∈ m, jsToLower p.1 = p.1)

/-! ## Verification

Shared lemmas, then one theorem per specification claim (with witnesses and
counterexamples on concrete inputs where applicable). -/

section Lemmas

/-- `uniqListAux` is the identity on duplicate-free lists of unseen elements. -/
theorem uniqListAux_eq_self : ∀ (l seen : List String), l.Nodup →
    (∀ x ∈ l, x ∉ seen) → uniqListAux l seen = l
  | [], _, _, _ => rfl
  | x :: xs, seen, hnd, hfresh => by
    have hx : seen.contains x = false := by
      have := hfresh x (List.mem_cons_self x xs)
      simpa using this
    simp only [uniqListAux, hx, Bool.false_eq_true, if_false, List.cons.injEq, true_and]
    exact uniqListAux_eq_self xs (x :: seen) (List.Nodup.of_cons hnd)
      (fun y hy => by
        rcases List.nodup_cons.mp hnd with ⟨hxn, _⟩
        intro hmem
        rcases List.mem_cons.mp hmem with h | h
        · exact hxn (h ▸ hy)
        · exact hfresh y (List.mem_cons_of_mem x hy) h)

/-- `uniqList` is the identity on duplicate-free lists. -/
theorem uniqList_eq_self (l : List String) (h : l.Nodup) : uniqList l = l :=
  uniqListAux_eq_self l [] h (by simp)

end Lemmas

section Lemmas

/-- ASCII lower-casing is idempotent. -/
theorem asciiLower_idem (c : Char) : asciiLower (asciiLower c) = asciiLower c := by
  by_cases h : 65 ≤ c.toNat ∧ c.toNat ≤ 90
  · have hv : (c.toNat + 32).isValidChar := Or.inl (by omega)
    have ht : (Char.ofNat (c.toNat + 32)).toNat = c.toNat + 32 := by
      unfold Char.ofNat
      rw [dif_pos hv]
      rfl
    have h1 : asciiLower c = Char.ofNat (c.toNat + 32) := by
      unfold asciiLower
      rw [if_pos h]
    rw [h1]
    unfold asciiLower
    rw [ht, if_neg (by omega)]
  · unfold asciiLower
    rw [if_neg h, if_neg h]

/-- `jsToLower` is idempotent. -/
theorem jsToLower_idem (s : String) : jsToLower (jsToLower s) = jsToLower s := by
  have hfun : asciiLower ∘ asciiLower = asciiLower := funext asciiLower_idem
  simp [jsToLower, List.map_map, hfun]

end Lemmas

section MergeLemmas

/-- Updating an existing key leaves the key list unchanged. -/
theorem kvSetNs_map_fst_mem (k : String) (v : Nameserver) :
    ∀ (m : List (String × Nameserver)), k ∈ m.map Prod.fst →
      (dedupeNameservers.kvSetNs m k v).map Prod.fst = m.map Prod.fst
  | [], h => by simp at h
  | p :: rest, h => by
    by_cases hk : p.1 = k
    · simp [dedupeNameservers.kvSetNs, hk]
    · have : k ∈ rest.map Prod.fst := by
        rcases List.mem_map.mp h with ⟨q, hq, hfst⟩
        rcases List.mem_cons.mp hq with rfl | hq'
        · exact absurd hfst hk
        · exact List.mem_map.mpr ⟨q, hq', hfst⟩
      simp [dedupeNameservers.kvSetNs, hk, kvSetNs_map_fst_mem k v rest this]

/-- Inserting a fresh key appends it. -/
theorem kvSetNs_map_fst_not_mem (k : String) (v : Nameserver) :
    ∀ (m : List (String × Nameserver)), k ∉ m.map Prod.fst →
      (dedupeNameservers.kvSetNs m k v).map Prod.fst = m.map Prod.fst ++ [k]
  | [], _ => by simp [dedupeNameservers.kvSetNs]
  | p :: rest, h => by
    have hk : ¬ (p.1 = k) := fun hk => h (by simp [hk])
    have hr : k ∉ rest.map Prod.fst := fun hmem => h (by simp [hmem])
    simp [dedupeNameservers.kvSetNs, hk, kvSetNs_map_fst_not_mem k v rest hr]

/-- An element of the updated map is the inserted pair or an original entry. -/
theorem mem_kvSetNs (k : String) (v : Nameserver) :
    ∀ (m : List (String × Nameserver)) (p : String × Nameserver),
      p ∈ dedupeNameservers.kvSetNs m k v → p = (k, v) ∨ p ∈ m
  | [], p, hp => by
    simp only [dedupeNameservers.kvSetNs, List.mem_singleton] at hp
    exact Or.inl hp
  | q :: rest, p, hp => by
    by_cases hk : q.1 = k
    · simp only [dedupeNameservers.kvSetNs, hk, if_true] at hp
      rcases List.mem_cons.mp hp with rfl | hp'
      · exact Or.inl rfl
      · exact Or.inr (List.mem_cons_of_mem q hp')
    · simp only [dedupeNameservers.kvSetNs, hk, if_false] at hp
      rcases List.mem_cons.mp hp with rfl | hp'
      · exact Or.inr (List.mem_cons_self q rest)
      · rcases mem_kvSetNs k v rest p hp' with h | h
        · exact Or.inl h
        · exact Or.inr (List.mem_cons_of_mem q h)

/-- One `dedupeNameservers` step preserves the invariant. -/
theorem step_preserves_inv (m : List (String × Nameserver)) (ns : Nameserver)
    (h : NsMapInv m) : NsMapInv (dedupeNameservers.step m ns) := by
  obtain ⟨hnd, hhost, hlow⟩ := h
  have hmemInv : ∀ (v : Nameserver), v.host = jsToLower ns.host →
      NsMapInv (dedupeNameservers.kvSetNs m (jsToLower ns.host) v) →
      True := fun _ _ _ => trivial
  unfold dedupeNameservers.step
  cases hfind : m.find? (fun p => p.1 = jsToLower ns.host) with
  | none =>
    have hfresh : jsToLower ns.host ∉ m.map Prod.fst := by
      intro hmem
      rcases List.mem_map.mp hmem with ⟨q, hq, hfst⟩
      have := List.find?_eq_none.mp hfind q hq
      simp [hfst] at this
    refine ⟨?_, ?_, ?_⟩
    · rw [kvSetNs_map_fst_not_mem _ _ m hfresh, List.nodup_append]
      refine ⟨hnd, by simp, ?_⟩
      intro x hx hx2
      rw [List.mem_singleton] at hx2
      subst hx2
      exact hfresh hx
    · intro p hp
      rcases mem_kvSetNs _ _ m p hp with rfl | hp'
      · rfl
      · exact hhost p hp'
    · intro p hp
      rcases mem_kvSetNs _ _ m p hp with rfl | hp'
      · exact jsToLower_idem ns.host
      · exact hlow p hp'
  | some q =>
    have hqmem : q ∈ m := List.mem_of_find?_eq_some hfind
    have hqkey : q.1 = jsToLower ns.host := by
      have := List.find?_some hfind
      simpa using this
    have hkin : jsToLower ns.host ∈ m.map Prod.fst :=
      List.mem_map.mpr ⟨q, hqmem, hqkey⟩
    refine ⟨?_, ?_, ?_⟩
    · rw [kvSetNs_map_fst_mem _ _ m hkin]
      exact hnd
    · intro p hp
      rcases mem_kvSetNs _ _ m p hp with rfl | hp'
      · rfl
      · exact hhost p hp'
    · intro p hp
      rcases mem_kvSetNs _ _ m p hp with rfl | hp'
      · exact jsToLower_idem ns.host
      · exact hlow p hp'

/-- The whole fold preserves the invariant. -/
theorem foldl_preserves_inv (l : List Nameserver) :
    ∀ m, NsMapInv m → NsMapInv (l.foldl dedupeNameservers.step m) := by
  induction l with
  | nil => intro m h; exact h
  | cons ns rest ih => intro m h; exact ih _ (step_preserves_inv m ns h)

/-- A map satisfying the invariant lists pairwise-distinct hosts, even
compared case-insensitively. -/
theorem nodup_hosts_of_inv (m : List (String × Nameserver)) (h : NsMapInv m) :
    ((m.map Prod.snd).map (fun n => jsToLower n.host)).Nodup := by
  obtain ⟨hnd, hhost, hlow⟩ := h
  have hmap : (m.map Prod.snd).map (fun n => jsToLower n.host) = m.map Prod.fst := by
    rw [List.map_map]
    exact List.map_congr_left (fun p hp => by
      simp only [Function.comp]
      rw [hhost p hp, hlow p hp])
  rw [hmap]
  exact hnd

/-- `dedupeNameservers` is `none` or the value list of an invariant map. -/
theorem dedupe_cases (a b : Option (List Nameserver)) :
    dedupeNameservers a b = none ∨
      ∃ m, NsMapInv m ∧ dedupeNameservers a b = some (m.map Prod.snd) := by
  have hinv : NsMapInv (((a.getD []) ++ (b.getD [])).foldl dedupeNameservers.step []) :=
    foldl_preserves_inv _ [] ⟨List.nodup_nil, by simp, by simp⟩
  unfold dedupeNameservers
  by_cases he :
      (((((a.getD []) ++ (b.getD [])).foldl dedupeNameservers.step []).map Prod.snd)).isEmpty
  · left
    rw [if_pos he]
  · right
    exact ⟨_, hinv, by rw [if_neg he]⟩

/-- `dedupeNameservers` yields pairwise-distinct hosts, even compared
case-insensitively. -/
theorem dedupeNameservers_hosts_nodup (a b : Option (List Nameserver)) :
    ((((dedupeNameservers a b).getD []).map (fun n => jsToLower n.host))).Nodup := by
  rcases dedupe_cases a b with h | ⟨m, hinv, h⟩
  · simp [h]
  · rw [h]
    simpa using nodup_hosts_of_inv m hinv

/-- The nameserver field of a nontrivial merge is a `dedupeNameservers` image. -/
theorem merge_ns_shape : ∀ (os : List DomainRecord) (base : DomainRecord), os ≠ [] →
    ∃ a b, (mergeWhoisRecords base os).nameservers = dedupeNameservers a b
  | [], _, h => absurd rfl h
  | [o], base, _ => ⟨base.nameservers, o.nameservers, rfl⟩
  | o :: o' :: os, base, _ => by
    have heq : mergeWhoisRecords base (o :: o' :: os) =
        mergeWhoisRecords (mergeStep base o) (o' :: os) := rfl
    rw [heq]
    exact merge_ns_shape (o' :: os) (mergeStep base o) (by simp)

/-- An element of a list lands in its first-occurrence deduplication whenever
it was not already seen. -/
theorem mem_uniqListAux_of_mem : ∀ (l seen : List String) (x : String),
    x ∈ l → x ∉ seen → x ∈ uniqListAux l seen
  | [], _, x, hx, _ => absurd hx (List.not_mem_nil x)
  | y :: ys, seen, x, hx, hxs => by
    cases hy : seen.contains y with
    | true =>
      simp only [uniqListAux, hy, if_true]
      rcases List.mem_cons.mp hx with rfl | hx2
      · exact absurd (by simpa using hy) hxs
      · exact mem_uniqListAux_of_mem ys seen x hx2 hxs
    | false =>
      simp only [uniqListAux, hy, Bool.false_eq_true, if_false]
      rcases List.mem_cons.mp hx with rfl | hx2
      · exact List.mem_cons_self x _
      · by_cases hxy : x = y
        · subst hxy
          exact List.mem_cons_self x _
        · refine List.mem_cons_of_mem y (mem_uniqListAux_of_mem ys (y :: seen) x hx2 ?_)
          intro hmem
          rcases List.mem_cons.mp hmem with h | h
          · exact hxy h
          · exact hxs h

/-- `uniqList` keeps every element of its input. -/
theorem mem_uniqList (l : List String) (x : String) (h : x ∈ l) : x ∈ uniqList l :=
  mem_uniqListAux_of_mem l [] x h (by simp)

/-- In a map with duplicate-free keys, entries sharing a key are equal. -/
theorem eq_of_nodup_keys : ∀ (m : List (String × Nameserver)),
    ((m.map Prod.fst).Nodup) → ∀ p ∈ m, ∀ q ∈ m, p.1 = q.1 → p = q
  | [], _, p, hp, _, _, _ => absurd hp (List.not_mem_nil p)
  | r :: rest, hnd, p, hp, q, hq, hpq => by
    have hr1 : r.1 ∉ rest.map Prod.fst := (List.nodup_cons.mp (by simpa using hnd)).1
    have hnd2 : ((rest.map Prod.fst).Nodup) := (List.nodup_cons.mp (by simpa using hnd)).2
    rcases List.mem_cons.mp hp with rfl | hp2
    · rcases List.mem_cons.mp hq with rfl | hq2
      · rfl
      · exact absurd (List.mem_map.mpr ⟨q, hq2, hpq.symm⟩) hr1
    · rcases List.mem_cons.mp hq with rfl | hq2
      · exact absurd (List.mem_map.mpr ⟨p, hp2, hpq⟩) hr1
      · exact eq_of_nodup_keys rest hnd2 p hp2 q hq2 hpq

/-- The updated pair itself is in the updated map. -/
theorem kvSetNs_mem_self (k : String) (v : Nameserver) :
    ∀ (m : List (String × Nameserver)), (k, v) ∈ dedupeNameservers.kvSetNs m k v
  | [] => by simp [dedupeNameservers.kvSetNs]
  | q :: rest => by
    by_cases hk : q.1 = k
    · simp [dedupeNameservers.kvSetNs, hk]
    · simp only [dedupeNameservers.kvSetNs, hk, if_false]
      exact List.mem_cons_of_mem q (kvSetNs_mem_self k v rest)

/-- Updating one key leaves every entry with a different key in place. -/
theorem kvSetNs_keeps (k : String) (v : Nameserver) :
    ∀ (m : List (String × Nameserver)) (p : String × Nameserver),
      p ∈ m → p.1 ≠ k → p ∈ dedupeNameservers.kvSetNs m k v
  | [], p, hp, _ => absurd hp (List.not_mem_nil p)
  | q :: rest, p, hp, hne => by
    by_cases hk : q.1 = k
    · simp only [dedupeNameservers.kvSetNs, hk, if_true]
      rcases List.mem_cons.mp hp with rfl | hp2
      · exact absurd hk hne
      · exact List.mem_cons_of_mem _ hp2
    · simp only [dedupeNameservers.kvSetNs, hk, if_false]
      rcases List.mem_cons.mp hp with rfl | hp2
      · exact List.mem_cons.mpr (Or.inl rfl)
      · exact List.mem_cons_of_mem q (kvSetNs_keeps k v rest p hp2 hne)

/-- One `dedupeNameservers` step keeps every existing entry, up to enlarging
its glue lists. -/
theorem step_keeps_entries (m : List (String × Nameserver)) (ns : Nameserver)
    (hinv : NsMapInv m) :
    ∀ p ∈ m, ∃ q ∈ dedupeNameservers.step m ns, q.1 = p.1
      ∧ (∀ x ∈ p.2.ipv4.getD [], x ∈ q.2.ipv4.getD [])
      ∧ (∀ x ∈ p.2.ipv6.getD [], x ∈ q.2.ipv6.getD []) := by
  intro p hp
  unfold dedupeNameservers.step
  cases hfind : m.find? (fun r => r.1 = jsToLower ns.host) with
  | none =>
    have hne : p.1 ≠ jsToLower ns.host := by
      intro h
      have := List.find?_eq_none.mp hfind p hp
      simp [h] at this
    exact ⟨p, kvSetNs_keeps _ _ m p hp hne, rfl, fun _ hx => hx, fun _ hx => hx⟩
  | some q0 =>
    have hq0mem : q0 ∈ m := List.mem_of_find?_eq_some hfind
    have hq0key : q0.1 = jsToLower ns.host := by
      have := List.find?_some hfind
      simpa using this
    by_cases hpk : p.1 = jsToLower ns.host
    · have hpq : p = q0 := eq_of_nodup_keys m hinv.1 p hp q0 hq0mem (by rw [hpk, hq0key])
      refine ⟨(jsToLower ns.host,
        { host := jsToLower ns.host
        , ipv4 := some (uniqList ((q0.2.ipv4.getD []) ++ (ns.ipv4.getD [])))
        , ipv6 := some (uniqList ((q0.2.ipv6.getD []) ++ (ns.ipv6.getD []))) }),
        kvSetNs_mem_self _ _ m, hpk.symm, ?_, ?_⟩
      · intro x hx
        rw [hpq] at hx
        exact mem_uniqList _ x (List.mem_append_left _ hx)
      · intro x hx
        rw [hpq] at hx
        exact mem_uniqList _ x (List.mem_append_left _ hx)
    · exact ⟨p, kvSetNs_keeps _ _ m p hp hpk, rfl, fun _ hx => hx, fun _ hx => hx⟩

/-- The step places an entry for the consumed nameserver that carries all of
its glue addresses. -/
theorem step_adds (m : List (String × Nameserver)) (ns : Nameserver) :
    ∃ q ∈ dedupeNameservers.step m ns, q.1 = jsToLower ns.host
      ∧ (∀ x ∈ ns.ipv4.getD [], x ∈ q.2.ipv4.getD [])
      ∧ (∀ x ∈ ns.ipv6.getD [], x ∈ q.2.ipv6.getD []) := by
  unfold dedupeNameservers.step
  cases hfind : m.find? (fun r => r.1 = jsToLower ns.host) with
  | none =>
    exact ⟨(jsToLower ns.host, { ns with host := jsToLower ns.host }),
      kvSetNs_mem_self _ _ m, rfl, fun _ hx => hx, fun _ hx => hx⟩
  | some q0 =>
    refine ⟨(jsToLower ns.host,
      { host := jsToLower ns.host
      , ipv4 := some (uniqList ((q0.2.ipv4.getD []) ++ (ns.ipv4.getD [])))
      , ipv6 := some (uniqList ((q0.2.ipv6.getD []) ++ (ns.ipv6.getD []))) }),
      kvSetNs_mem_self _ _ m, rfl, ?_, ?_⟩
    · exact fun x hx => mem_uniqList _ x (List.mem_append_right _ hx)
    · exact fun x hx => mem_uniqList _ x (List.mem_append_right _ hx)

/-- The whole fold keeps every entry of the running map, up to enlarging its
glue lists. -/
theorem foldl_step_keeps : ∀ (l : List Nameserver) (m : List (String × Nameserver)),
    NsMapInv m → ∀ p ∈ m, ∃ q ∈ l.foldl dedupeNameservers.step m, q.1 = p.1
      ∧ (∀ x ∈ p.2.ipv4.getD [], x ∈ q.2.ipv4.getD [])
      ∧ (∀ x ∈ p.2.ipv6.getD [], x ∈ q.2.ipv6.getD [])
  | [], _, _, p, hp => ⟨p, hp, rfl, fun _ hx => hx, fun _ hx => hx⟩
  | ns :: rest, m, hinv, p, hp => by
    obtain ⟨q, hq, hk, h4, h6⟩ := step_keeps_entries m ns hinv p hp
    obtain ⟨q2, hq2, hk2, h42, h62⟩ :=
      foldl_step_keeps rest _ (step_preserves_inv m ns hinv) q hq
    exact ⟨q2, hq2, by rw [hk2, hk], fun x hx => h42 x (h4 x hx),
      fun x hx => h62 x (h6 x hx)⟩

/-- Every consumed nameserver ends in the fold with all of its glue
addresses. -/
theorem foldl_step_adds : ∀ (l : List Nameserver) (m : List (String × Nameserver)),
    NsMapInv m → ∀ ns ∈ l, ∃ q ∈ l.foldl dedupeNameservers.step m,
      q.1 = jsToLower ns.host
      ∧ (∀ x ∈ ns.ipv4.getD [], x ∈ q.2.ipv4.getD [])
      ∧ (∀ x ∈ ns.ipv6.getD [], x ∈ q.2.ipv6.getD [])
  | [], _, _, ns, h => absurd h (List.not_mem_nil ns)
  | ns0 :: rest, m, hinv, ns, h => by
    rcases List.mem_cons.mp h with rfl | h2
    · obtain ⟨q, hq, hk, h4, h6⟩ := step_adds m ns
      obtain ⟨q2, hq2, hk2, h42, h62⟩ :=
        foldl_step_keeps rest _ (step_preserves_inv m ns hinv) q hq
      exact ⟨q2, hq2, by rw [hk2, hk], fun x hx => h42 x (h4 x hx),
        fun x hx => h62 x (h6 x hx)⟩
    · exact foldl_step_adds rest _ (step_preserves_inv m ns0 hinv) ns h2

/-- Every nameserver of either input list has an entry in the deduplicated
output holding its lower-cased host and all of its glue addresses. -/
theorem dedupe_mem_union (a b : Option (List Nameserver)) (m : Nameserver)
    (hm : m ∈ (a.getD []) ++ (b.getD [])) :
    ∃ n ∈ (dedupeNameservers a b).getD [], n.host = jsToLower m.host
      ∧ (∀ x ∈ m.ipv4.getD [], x ∈ n.ipv4.getD [])
      ∧ (∀ x ∈ m.ipv6.getD [], x ∈ n.ipv6.getD []) := by
  have hinv0 : NsMapInv ([] : List (String × Nameserver)) :=
    ⟨List.nodup_nil, by simp, by simp⟩
  obtain ⟨q, hq, hk, h4, h6⟩ := foldl_step_adds ((a.getD []) ++ (b.getD [])) [] hinv0 m hm
  have hinv := foldl_preserves_inv ((a.getD []) ++ (b.getD [])) [] hinv0
  have hhost : q.2.host = q.1 := hinv.2.1 q hq
  refine ⟨q.2, ?_, by rw [hhost, hk], h4, h6⟩
  have hqmem : q.2 ∈
      (((a.getD []) ++ (b.getD [])).foldl dedupeNameservers.step []).map Prod.snd :=
    List.mem_map.mpr ⟨q, hq, rfl⟩
  have hne : ¬ ((((a.getD []) ++ (b.getD [])).foldl
      dedupeNameservers.step []).map Prod.snd).isEmpty = true := by
    intro h
    rw [List.isEmpty_iff] at h
    rw [h] at hqmem
    exact absurd hqmem (List.not_mem_nil _)
  unfold dedupeNameservers
  rw [if_neg hne]
  simpa using hqmem

/-- Across a whole merge with at least one non-base record, every contributing
nameserver has an entry for its lower-cased host that carries all of its glue
addresses. -/
theorem mergeFold_ns_union : ∀ (rest : List DomainRecord) (base : DomainRecord)
    (m : Nameserver), rest ≠ [] →
    (m ∈ base.nameservers.getD [] ∨ ∃ r ∈ rest, m ∈ r.nameservers.getD []) →
    ∃ n ∈ (mergeWhoisRecords base rest).nameservers.getD [],
      n.host = jsToLower m.host
      ∧ (∀ x ∈ m.ipv4.getD [], x ∈ n.ipv4.getD [])
      ∧ (∀ x ∈ m.ipv6.getD [], x ∈ n.ipv6.getD [])
  | [], _, _, hne, _ => absurd rfl hne
  | [o], base, m, _, hm => by
    have hm2 : m ∈ (base.nameservers.getD []) ++ (o.nameservers.getD []) := by
      rcases hm with h | ⟨r, hr, h⟩
      · exact List.mem_append_left _ h
      · rw [List.mem_singleton] at hr
        subst hr
        exact List.mem_append_right _ h
    have heq : (mergeWhoisRecords base [o]).nameservers =
        dedupeNameservers base.nameservers o.nameservers := rfl
    rw [heq]
    exact dedupe_mem_union base.nameservers o.nameservers m hm2
  | o :: o2 :: os, base, m, _, hm => by
    have heq : mergeWhoisRecords base (o :: o2 :: os) =
        mergeWhoisRecords (mergeStep base o) (o2 :: os) := rfl
    have hstep : (mergeStep base o).nameservers =
        dedupeNameservers base.nameservers o.nameservers := rfl
    rw [heq]
    have glue : m ∈ (base.nameservers.getD []) ++ (o.nameservers.getD []) →
        ∃ n ∈ (mergeWhoisRecords (mergeStep base o) (o2 :: os)).nameservers.getD [],
          n.host = jsToLower m.host
          ∧ (∀ x ∈ m.ipv4.getD [], x ∈ n.ipv4.getD [])
          ∧ (∀ x ∈ m.ipv6.getD [], x ∈ n.ipv6.getD []) := by
      intro hm2
      obtain ⟨n1, hn1, hh1, h41, h61⟩ :=
        dedupe_mem_union base.nameservers o.nameservers m hm2
      have hn1mem : n1 ∈ (mergeStep base o).nameservers.getD [] := by
        rw [hstep]
        exact hn1
      obtain ⟨n2, hn2, hh2, h42, h62⟩ := mergeFold_ns_union (o2 :: os) (mergeStep base o)
        n1 (by simp) (Or.inl hn1mem)
      refine ⟨n2, hn2, ?_, fun x hx => h42 x (h41 x hx), fun x hx => h62 x (h61 x hx)⟩
      rw [hh2, hh1, jsToLower_idem]
    rcases hm with h | ⟨r, hr, h⟩
    · exact glue (List.mem_append_left _ h)
    · rcases List.mem_cons.mp hr with rfl | hr2
      · exact glue (List.mem_append_right _ h)
      · exact mergeFold_ns_union (o2 :: os) (mergeStep base o) m (by simp)
          (Or.inr ⟨r, hr2, h⟩)

end MergeLemmas

section MergeFieldLemmas

/-- The registration flag of a merge is the OR over all contributing records. -/
theorem mergeWhoisRecords_isRegistered (others : List DomainRecord) :
    ∀ base, (mergeWhoisRecords base others).isRegistered =
      (base.isRegistered || others.any (fun r => r.isRegistered)) := by
  induction others with
  | nil => intro base; simp [mergeWhoisRecords]
  | cons o os ih =>
    intro base
    have heq : mergeWhoisRecords base (o :: os) = mergeWhoisRecords (mergeStep base o) os := rfl
    rw [heq, ih]
    simp [mergeStep, Bool.or_assoc]

/-- When every merged-in record carries a WHOIS server, the merged record
reports the last one (the base's, for an empty rest). -/
theorem mergeWhoisRecords_whoisServer (others : List DomainRecord) :
    ∀ base, (∀ r ∈ others, r.whoisServer.isSome) →
      (mergeWhoisRecords base others).whoisServer = (others.getLastD base).whoisServer := by
  induction others with
  | nil => intro base _; rfl
  | cons o os ih =>
    intro base h
    have heq : mergeWhoisRecords base (o :: os) = mergeWhoisRecords (mergeStep base o) os := rfl
    have hstep : (mergeStep base o).whoisServer = o.whoisServer := by
      have := h o (List.mem_cons_self o os)
      cases ho : o.whoisServer with
      | none => rw [ho] at this; simp at this
      | some x => simp [mergeStep, ho]
    rw [heq, ih (mergeStep base o) (fun r hr => h r (List.mem_cons_of_mem o hr)),
      List.getLastD_cons]
    cases os with
    | nil => simpa using hstep
    | cons o' os' =>
      have hgl : (o' :: os').getLast? = some ((o' :: os').getLast (by simp)) :=
        List.getLast?_eq_getLast _ _
      simp [List.getLastD, hgl]

end MergeFieldLemmas

/-- Claim C4 — `normalizeWhois` reports a domain as unregistered exactly when
the full response text matches at least one phrase of the normalizer's
availability pattern list, regardless of any other parsed field; in
particular the exact text `"No match for domain.com"` yields
`isRegistered = false`. -/
theorem normalizeWhois_isRegistered_iff_availability :
    (∀ (dom tld text : String) (srv : Option String) (raw : Bool),
      ((normalizeWhois dom tld text srv raw).isRegistered = false ↔
        isAvailableByWhois text = true))
    ∧ (normalizeWhois "domain.com" "com" "No match for domain.com" none false).isRegistered
        = false := by
  constructor
  · intro dom tld text srv raw
    show (!isAvailableByWhois text) = false ↔ isAvailableByWhois text = true
    cases isAvailableByWhois text <;> simp
  · decide

/-- Claim C8 — coalescing a single-element chain is the identity: the
orchestrator's merge step returns the record of normalizing that one response
directly, and `mergeWhoisRecords` with an empty rest list returns its base
unchanged. -/
theorem merge_singleton_chain_identity :
    (∀ (dom tld text : String) (srv : Option String) (raw : Bool),
      mergeChainRecords [normalizeWhois dom tld text srv raw] =
        some (normalizeWhois dom tld text srv raw))
    ∧ (∀ r : DomainRecord, mergeWhoisRecords r [] = r) :=
  ⟨fun _ _ _ _ _ => rfl, fun _ => rfl⟩

/-- Claim C6, counterexample — the WHOIS normalizer does not deduplicate
nameservers by host: a response listing the same host twice with different
glue addresses yields two entries for that host (the JS `uniq` uses `Set`
reference identity over freshly built objects), so the record produced by the
normalizer violates the claimed one-entry-per-host invariant. -/
theorem normalizer_duplicate_nameservers_counterexample :
    ((normalizeWhois "example.com" "com"
        "Name Server: ns1.example.com 192.0.2.1\nName Server: ns1.example.com 192.0.2.2"
        (some "whois.example.com") false).nameservers =
      some [{ host := "ns1.example.com", ipv4 := some ["192.0.2.1"], ipv6 := none },
            { host := "ns1.example.com", ipv4 := some ["192.0.2.2"], ipv6 := none }])
    ∧ ¬ ((((normalizeWhois "example.com" "com"
        "Name Server: ns1.example.com 192.0.2.1\nName Server: ns1.example.com 192.0.2.2"
        (some "whois.example.com") false).nameservers.getD []).map
          (fun n => jsToLower n.host)).Nodup) := by
  constructor
  · decide
  · decide

/-- Claim C6, amended — records produced by the record merger (a merge with at
least one non-base record) contain at most one nameserver entry per host,
compared case-insensitively, and the glue IPv4/IPv6 lists of duplicate hosts
are unioned into that single entry rather than one overwriting the other:
every contributing record's nameserver finds an output entry under its
lower-cased host containing all of its glue addresses.  The normalizers
themselves do not deduplicate (see the counterexample). -/
theorem merged_nameservers_deduped_by_host (base o : DomainRecord) (os : List DomainRecord) :
    ((((mergeWhoisRecords base (o :: os)).nameservers.getD []).map
      (fun n => jsToLower n.host)).Nodup)
    ∧ (∀ r ∈ base :: o :: os, ∀ m ∈ r.nameservers.getD [],
        ∃ n ∈ (mergeWhoisRecords base (o :: os)).nameservers.getD [],
          n.host = jsToLower m.host
          ∧ (∀ x ∈ m.ipv4.getD [], x ∈ n.ipv4.getD [])
          ∧ (∀ x ∈ m.ipv6.getD [], x ∈ n.ipv6.getD [])) := by
  constructor
  · rcases merge_ns_shape (o :: os) base (by simp) with ⟨a, b, hab⟩
    rw [hab]
    exact dedupeNameservers_hosts_nodup a b
  · intro r hr m hm
    rcases List.mem_cons.mp hr with rfl | hr2
    · exact mergeFold_ns_union (o :: os) r m (by simp) (Or.inl hm)
    · exact mergeFold_ns_union (o :: os) base m (by simp) (Or.inr ⟨r, hr2, hm⟩)

/-- Claim C7 — merging two records that each contain the same nameserver host
with disjoint duplicate-free glue IPv4 lists yields exactly one entry for that
host whose `ipv4` is the union of the two lists. -/
theorem merge_unions_disjoint_glue (r1 r2 : DomainRecord) (h : String) (A B : List String)
    (h1 : r1.nameservers = some [{ host := h, ipv4 := some A, ipv6 := none }])
    (h2 : r2.nameservers = some [{ host := h, ipv4 := some B, ipv6 := none }])
    (hnd : (A ++ B).Nodup) :
    (mergeWhoisRecords r1 [r2]).nameservers =
      some [{ host := jsToLower h, ipv4 := some (A ++ B), ipv6 := some [] }] := by
  have hm : (mergeWhoisRecords r1 [r2]).nameservers =
      dedupeNameservers r1.nameservers r2.nameservers := rfl
  rw [hm, h1, h2]
  have hfind : List.find? (fun p => p.1 = jsToLower h)
      [(jsToLower h, ({ host := jsToLower h, ipv4 := some A, ipv6 := none } : Nameserver))] =
      some (jsToLower h, { host := jsToLower h, ipv4 := some A, ipv6 := none }) := by
    simp [List.find?]
  unfold dedupeNameservers
  simp only [Option.getD_some, List.singleton_append, List.foldl_cons, List.foldl_nil]
  have s1 : dedupeNameservers.step [] { host := h, ipv4 := some A, ipv6 := none } =
      [(jsToLower h, { host := jsToLower h, ipv4 := some A, ipv6 := none })] := rfl
  rw [s1]
  have s2 : dedupeNameservers.step
      [(jsToLower h, ({ host := jsToLower h, ipv4 := some A, ipv6 := none } : Nameserver))]
      { host := h, ipv4 := some B, ipv6 := none } =
      [(jsToLower h, { host := jsToLower h, ipv4 := some (uniqList (A ++ B))
                     , ipv6 := some (uniqList []) })] := by
    unfold dedupeNameservers.step
    rw [hfind]
    simp [dedupeNameservers.kvSetNs]
  rw [s2, uniqList_eq_self _ hnd]
  rfl

section WalkerLemmas

/-- Unfolding equation of `collectWhoisReferralChain` for a successful initial
query. -/
theorem collectChain_eq_some (env : String → Option String) (s : String) (f : Bool)
    (mh : Option Int) (t : String) (h : env s = some t) :
    collectWhoisReferralChain env s f mh =
      (if f = false ∨ effMaxHops mh = 0 then (some [⟨s, t⟩], [s])
       else (some (collectLoop env (effMaxHops mh) [normalizeRef s] ⟨s, t⟩ [⟨s, t⟩]).1,
         s :: (collectLoop env (effMaxHops mh) [normalizeRef s] ⟨s, t⟩ [⟨s, t⟩]).2)) := by
  unfold collectWhoisReferralChain
  rw [h]

/-- Unfolding equation of `collectWhoisReferralChain` for a failed initial
query. -/
theorem collectChain_eq_none (env : String → Option String) (s : String) (f : Bool)
    (mh : Option Int) (h : env s = none) :
    collectWhoisReferralChain env s f mh = (none, [s]) := by
  unfold collectWhoisReferralChain
  rw [h]

/-- Unfolding equation of `followWhoisReferrals` for a successful initial
query. -/
theorem followReferrals_eq_some (env : String → Option String) (s : String) (f : Bool)
    (mh : Option Int) (t : String) (h : env s = some t) :
    followWhoisReferrals env s f mh =
      (if f = false ∨ effMaxHops mh = 0 then (some ⟨s, t⟩, [s])
       else (some (followLoop env (effMaxHops mh) [normalizeRef s] ⟨s, t⟩).1,
         s :: (followLoop env (effMaxHops mh) [normalizeRef s] ⟨s, t⟩).2)) := by
  unfold followWhoisReferrals
  rw [h]

/-- Unfolding equation of `followWhoisReferrals` for a failed initial query. -/
theorem followReferrals_eq_none (env : String → Option String) (s : String) (f : Bool)
    (mh : Option Int) (h : env s = none) :
    followWhoisReferrals env s f mh = (none, [s]) := by
  unfold followWhoisReferrals
  rw [h]

/-- The collecting walker only appends: the input chain is a prefix of its
output. -/
theorem collectLoop_results_prefix (env : String → Option String) :
    ∀ (fuel : Nat) (visited : List String) (current : WhoisQueryResult)
      (results : List WhoisQueryResult),
      ∃ t, (collectLoop env fuel visited current results).1 = results ++ t
  | 0, _, _, results => ⟨[], by simp [collectLoop]⟩
  | fuel + 1, visited, current, results => by
    simp only [collectLoop]
    split
    · exact ⟨[], by simp⟩
    · rename_i next hext
      split
      · exact ⟨[], by simp⟩
      · split
        · exact ⟨[], by simp⟩
        · split
          · exact ⟨[], by simp⟩
          · rename_i t heq
            split
            · exact ⟨[], by simp⟩
            · obtain ⟨tail, htail⟩ := collectLoop_results_prefix env fuel
                (normalizeRef next :: visited) ⟨next, t⟩ (results ++ [⟨next, t⟩])
              exact ⟨⟨next, t⟩ :: tail, by rw [htail]; simp⟩

/-- The loop queries at most `fuel` further servers. -/
theorem collectLoop_queried_bound (env : String → Option String) :
    ∀ (fuel : Nat) (visited : List String) (current : WhoisQueryResult)
      (results : List WhoisQueryResult),
      (collectLoop env fuel visited current results).2.length ≤ fuel
  | 0, _, _, _ => by simp [collectLoop]
  | fuel + 1, visited, current, results => by
    simp only [collectLoop]
    split
    · simp
    · rename_i next hext
      split
      · simp
      · split
        · simp
        · split
          · simp
          · rename_i t heq
            split
            · simp
            · have := collectLoop_queried_bound env fuel
                (normalizeRef next :: visited) ⟨next, t⟩ (results ++ [⟨next, t⟩])
              simpa using this

/-- Every server the loop queries is fresh for the incoming visited set, and
the queried servers are pairwise distinct modulo normalization. -/
theorem collectLoop_queried_fresh (env : String → Option String) :
    ∀ (fuel : Nat) (visited : List String) (current : WhoisQueryResult)
      (results : List WhoisQueryResult),
      (∀ x ∈ (collectLoop env fuel visited current results).2,
        ¬ (visited.contains (normalizeRef x) = true))
      ∧ ((collectLoop env fuel visited current results).2.map normalizeRef).Nodup
  | 0, _, _, _ => by simp [collectLoop]
  | fuel + 1, visited, current, results => by
    simp only [collectLoop]
    split
    · simp
    · rename_i next hext
      split
      · simp
      · split
        · simp
        · rename_i hfresh
          split
          · constructor
            · intro x hx
              rw [List.mem_singleton] at hx
              subst hx
              exact hfresh
            · simp
          · rename_i t heq
            split
            · constructor
              · intro x hx
                rw [List.mem_singleton] at hx
                subst hx
                exact hfresh
              · simp
            · obtain ⟨ihfresh, ihnodup⟩ := collectLoop_queried_fresh env fuel
                (normalizeRef next :: visited) ⟨next, t⟩ (results ++ [⟨next, t⟩])
              constructor
              · intro x hx
                rcases List.mem_cons.mp hx with rfl | hx'
                · exact hfresh
                · have hv := ihfresh x hx'
                  intro hcontra
                  apply hv
                  simp only [List.contains_cons, Bool.or_eq_true]
                  right
                  exact hcontra
              · simp only [List.map_cons, List.nodup_cons]
                refine ⟨?_, ihnodup⟩
                intro hmem
                rcases List.mem_map.mp hmem with ⟨x, hx, hnx⟩
                apply ihfresh x hx
                simp only [List.contains_cons, Bool.or_eq_true]
                left
                simp [hnx]

/-- The adopting walker queries at most `fuel` further servers. -/
theorem followLoop_queried_bound (env : String → Option String) :
    ∀ (fuel : Nat) (visited : List String) (current : WhoisQueryResult),
      (followLoop env fuel visited current).2.length ≤ fuel
  | 0, _, _ => by simp [followLoop]
  | fuel + 1, visited, current => by
    simp only [followLoop]
    split
    · simp
    · rename_i next hext
      split
      · simp
      · split
        · simp
        · split
          · simp
          · rename_i t heq
            split
            · simp
            · have := followLoop_queried_bound env fuel
                (normalizeRef next :: visited) ⟨next, t⟩
              simpa using this

/-- Freshness and distinctness for `followLoop`. -/
theorem followLoop_queried_fresh (env : String → Option String) :
    ∀ (fuel : Nat) (visited : List String) (current : WhoisQueryResult),
      (∀ x ∈ (followLoop env fuel visited current).2,
        ¬ (visited.contains (normalizeRef x) = true))
      ∧ ((followLoop env fuel visited current).2.map normalizeRef).Nodup
  | 0, _, _ => by simp [followLoop]
  | fuel + 1, visited, current => by
    simp only [followLoop]
    split
    · simp
    · rename_i next hext
      split
      · simp
      · split
        · simp
        · rename_i hfresh
          split
          · constructor
            · intro x hx
              rw [List.mem_singleton] at hx
              subst hx
              exact hfresh
            · simp
          · rename_i t heq
            split
            · constructor
              · intro x hx
                rw [List.mem_singleton] at hx
                subst hx
                exact hfresh
              · simp
            · obtain ⟨ihfresh, ihnodup⟩ := followLoop_queried_fresh env fuel
                (normalizeRef next :: visited) ⟨next, t⟩
              constructor
              · intro x hx
                rcases List.mem_cons.mp hx with rfl | hx'
                · exact hfresh
                · have hv := ihfresh x hx'
                  intro hcontra
                  apply hv
                  simp only [List.contains_cons, Bool.or_eq_true]
                  right
                  exact hcontra
              · simp only [List.map_cons, List.nodup_cons]
                refine ⟨?_, ihnodup⟩
                intro hmem
                rcases List.mem_map.mp hmem with ⟨x, hx, hnx⟩
                apply ihfresh x hx
                simp only [List.contains_cons, Bool.or_eq_true]
                left
                simp [hnx]

/-- The RDAP link-following loop performs at most `fuel` hops. -/
theorem rdapFollowLoop_rounds_le {α : Type} (env : RdapFollowEnv α) (domain : String) :
    ∀ (fuel : Nat) (visited : List String) (current : α) (tried : List String),
      (rdapFollowLoop env domain fuel visited current tried).2.2 ≤ fuel
  | 0, _, _, _ => by simp [rdapFollowLoop]
  | fuel + 1, visited, current, tried => by
    simp only [rdapFollowLoop]
    split
    · simp
    · split
      · simp
      · have := rdapFollowLoop_rounds_le env domain fuel
          (rdapFetchBatch env domain
            ((env.extractRelatedLinks current).filter (fun u => ¬ visited.contains u))
            visited).1
          (env.mergeRdapDocs current
            (rdapFetchBatch env domain
              ((env.extractRelatedLinks current).filter (fun u => ¬ visited.contains u))
              visited).2.2)
          (tried ++ (rdapFetchBatch env domain
            ((env.extractRelatedLinks current).filter (fun u => ¬ visited.contains u))
            visited).2.1)
        simpa using this

end WalkerLemmas

section ChainLemmas

/-- The registration flag of a coalesced chain is the OR over the chain. -/
theorem mergeChainRecords_isRegistered (records : List DomainRecord) (m : DomainRecord)
    (h : mergeChainRecords records = some m) :
    m.isRegistered = records.any (fun r => r.isRegistered) := by
  cases records with
  | nil => simp [mergeChainRecords] at h
  | cons first rest =>
    simp only [mergeChainRecords, Option.some.injEq] at h
    subst h
    cases rest with
    | nil => simp
    | cons o os =>
      simp only [List.isEmpty_cons, Bool.false_eq_true, if_false,
        mergeWhoisRecords_isRegistered, List.any_cons]

/-- The WHOIS server of a coalesced chain is the last element's, when every
element carries one. -/
theorem mergeChainRecords_whoisServer (records : List DomainRecord) (m : DomainRecord)
    (h : mergeChainRecords records = some m)
    (hs : ∀ r ∈ records, r.whoisServer.isSome) :
    ∃ last, records.getLast? = some last ∧ m.whoisServer = last.whoisServer := by
  cases records with
  | nil => simp [mergeChainRecords] at h
  | cons first rest =>
    simp only [mergeChainRecords, Option.some.injEq] at h
    subst h
    cases rest with
    | nil => exact ⟨first, rfl, by simp⟩
    | cons o os =>
      have hms := mergeWhoisRecords_whoisServer (o :: os) first
        (fun r hr => hs r (List.mem_cons_of_mem first hr))
      have hgl : (o :: os).getLast? = some ((o :: os).getLast (by simp)) :=
        List.getLast?_eq_getLast _ _
      refine ⟨(o :: os).getLast (by simp), ?_, ?_⟩
      · rw [List.getLast?_cons_cons]
        exact hgl
      · simp only [List.isEmpty_cons, Bool.false_eq_true, if_false]
        rw [hms]
        simp [List.getLastD, hgl]

end ChainLemmas

/-- Claim C2 — for every environment (hence for every referral/link topology,
cycles included) the WHOIS walkers query at most `maxHops + 1` servers, each
at most once when keyed by the host normalized by stripping a whois prefix
and lower-casing; the RDAP link follower performs at most `maxHops` hops; and the hop
budget `Math.max(0, opts?.maxWhoisReferralHops ?? 2)` defaults to 2 and clamps
negative values to 0.  Termination itself is by construction: the walkers are
total functions of the hop budget. -/
theorem walkers_bounded_and_terminate {α : Type}
    (env : String → Option String) (s : String) (follow : Bool) (mh : Option Int)
    (fenv : RdapFollowEnv α) (dom : String) (doc : α) (fl : Bool) :
    ((collectWhoisReferralChain env s follow mh).2.map normalizeRef).Nodup
    ∧ (collectWhoisReferralChain env s follow mh).2.length ≤ effMaxHops mh + 1
    ∧ ((followWhoisReferrals env s follow mh).2.map normalizeRef).Nodup
    ∧ (followWhoisReferrals env s follow mh).2.length ≤ effMaxHops mh + 1
    ∧ (fetchAndMergeRdapRelated fenv dom doc fl mh).2.2 ≤ effMaxHops mh
    ∧ effMaxHops none = 2 ∧ (∀ k : Int, effMaxHops (some k) = k.toNat) := by
  have hc : ((collectWhoisReferralChain env s follow mh).2.map normalizeRef).Nodup
      ∧ (collectWhoisReferralChain env s follow mh).2.length ≤ effMaxHops mh + 1 := by
    cases henv : env s with
    | none => rw [collectChain_eq_none env s follow mh henv]; simp
    | some t =>
      rw [collectChain_eq_some env s follow mh t henv]
      by_cases hf : follow = false ∨ effMaxHops mh = 0
      · rw [if_pos hf]; simp
      · rw [if_neg hf]
        obtain ⟨hfresh, hnodup⟩ := collectLoop_queried_fresh env (effMaxHops mh)
          [normalizeRef s] ⟨s, t⟩ [⟨s, t⟩]
        have hbound := collectLoop_queried_bound env (effMaxHops mh)
          [normalizeRef s] ⟨s, t⟩ [⟨s, t⟩]
        constructor
        · simp only [List.map_cons, List.nodup_cons]
          refine ⟨?_, hnodup⟩
          intro hmem
          rcases List.mem_map.mp hmem with ⟨x, hx, hnx⟩
          apply hfresh x hx
          simp [hnx]
        · simpa using hbound
  have hfw : ((followWhoisReferrals env s follow mh).2.map normalizeRef).Nodup
      ∧ (followWhoisReferrals env s follow mh).2.length ≤ effMaxHops mh + 1 := by
    cases henv : env s with
    | none => rw [followReferrals_eq_none env s follow mh henv]; simp
    | some t =>
      rw [followReferrals_eq_some env s follow mh t henv]
      by_cases hf : follow = false ∨ effMaxHops mh = 0
      · rw [if_pos hf]; simp
      · rw [if_neg hf]
        obtain ⟨hfresh, hnodup⟩ := followLoop_queried_fresh env (effMaxHops mh)
          [normalizeRef s] ⟨s, t⟩
        have hbound := followLoop_queried_bound env (effMaxHops mh) [normalizeRef s] ⟨s, t⟩
        constructor
        · simp only [List.map_cons, List.nodup_cons]
          refine ⟨?_, hnodup⟩
          intro hmem
          rcases List.mem_map.mp hmem with ⟨x, hx, hnx⟩
          apply hfresh x hx
          simp [hnx]
        · simpa using hbound
  have hr : (fetchAndMergeRdapRelated fenv dom doc fl mh).2.2 ≤ effMaxHops mh := by
    unfold fetchAndMergeRdapRelated
    by_cases h1 : fl = false
    · rw [if_pos h1]; simp
    · rw [if_neg h1]
      by_cases h2 : effMaxHops mh = 0
      · rw [if_pos h2]; simp
      · rw [if_neg h2]
        exact rdapFollowLoop_rounds_le fenv dom (effMaxHops mh) [] doc []
  refine ⟨hc.1, hc.2, hfw.1, hfw.2, hr, rfl, ?_⟩
  intro k
  simp only [effMaxHops, Option.getD_some]
  omega

/-- Claim C9 — whenever the initial WHOIS query succeeds,
`collectWhoisReferralChain` returns a non-empty chain whose first element is
exactly the initial server's response; the orchestrator's empty-chain
fallback branch is therefore unreachable in that case. -/
theorem chain_starts_with_initial_response
    (env : String → Option String) (s : String) (follow : Bool) (mh : Option Int)
    (t : String) (henv : env s = some t) :
    ∃ rest, (collectWhoisReferralChain env s follow mh).1 = some (⟨s, t⟩ :: rest) := by
  rw [collectChain_eq_some env s follow mh t henv]
  by_cases hf : follow = false ∨ effMaxHops mh = 0
  · rw [if_pos hf]
    exact ⟨[], rfl⟩
  · rw [if_neg hf]
    obtain ⟨tail, htail⟩ := collectLoop_results_prefix env (effMaxHops mh)
      [normalizeRef s] ⟨s, t⟩ [⟨s, t⟩]
    exact ⟨tail, by simp [htail]⟩

/-- Claim C1, counterexample — with the upstream response `"status: free\n…"`
(registered according to the walker's availability list, which is the
classifier `collectWhoisReferralChain` consults) and a downstream response
claiming availability, the walker does stop at the upstream server, yet the
final coalesced record has `isRegistered = false`, because the normalizer
classifies availability with a longer phrase list (`status:\s*free` is only in
the normalizer's list).  This falsifies the claimed invariant that the final
record always has `isRegistered = true` in this situation. -/
theorem walker_contradiction_counterexample :
    isWhoisAvailable contradictionUpstreamText = false
    ∧ isWhoisAvailable contradictionDownstreamText = true
    ∧ (collectWhoisReferralChain contradictionEnv "whois.nic.example" true none).1 =
        some [⟨"whois.nic.example", contradictionUpstreamText⟩]
    ∧ ((mergeChainRecords
        (((collectWhoisReferralChain contradictionEnv "whois.nic.example" true none).1.getD
            []).map (fun r =>
          normalizeWhois "example.com" "example" r.text (some r.serverQueried) false))).map
        (fun m => m.isRegistered)) = some false := by
  refine ⟨by decide, by decide, by decide, by decide⟩

/-- Claim C1, amended — if the most recently adopted response matches no
availability phrase of the *normalizer's* list (a condition that implies it is
registered under the walker's shorter list as well) and the next referred
server's response classifies as unregistered under the *walker's* list, then
the walker neither adopts nor appends the downstream response and stops, and
the final coalesced record has `isRegistered = true` with its server trail
ending at the upstream server. -/
theorem walker_contradiction_amended
    (env : String → Option String) (fuel : Nat) (visited : List String)
    (current : WhoisQueryResult) (results : List WhoisQueryResult)
    (d dt dom tld : String) (raw : Bool)
    (hreg : isAvailableByWhois current.text = false)
    (hext : extractWhoisReferral current.text = some d)
    (hne : d.data.isEmpty = false)
    (hfresh : visited.contains (normalizeRef d) = false)
    (henv : env d = some dt)
    (havail : isWhoisAvailable dt = true)
    (hlast : results.getLast? = some current) :
    (collectLoop env (fuel + 1) visited current results).1 = results
    ∧ ((mergeChainRecords (results.map (fun r =>
        normalizeWhois dom tld r.text (some r.serverQueried) raw))).map
          (fun m => m.isRegistered)) = some true
    ∧ ((mergeChainRecords (results.map (fun r =>
        normalizeWhois dom tld r.text (some r.serverQueried) raw))).map
          (fun m => m.whoisServer)) = some (some current.serverQueried) := by
  have hcurmem : current ∈ results := by
    have hmem : current ∈ results.getLast? := Option.mem_def.mpr hlast
    obtain ⟨hne', heq⟩ := List.mem_getLast?_eq_getLast hmem
    rw [heq]
    exact List.getLast_mem hne'
  have hne_results : results ≠ [] := by
    intro hnil
    rw [hnil] at hlast
    simp at hlast
  obtain ⟨first, rest, hcons⟩ := List.exists_cons_of_ne_nil hne_results
  have hm : mergeChainRecords (results.map (fun r =>
      normalizeWhois dom tld r.text (some r.serverQueried) raw)) =
      some ((fun l => if l.tail.isEmpty then l.headD (normalizeWhois dom tld "" none raw)
        else mergeWhoisRecords (l.headD (normalizeWhois dom tld "" none raw)) l.tail)
          (results.map (fun r => normalizeWhois dom tld r.text (some r.serverQueried) raw))) := by
    rw [hcons]
    simp [mergeChainRecords]
  obtain ⟨m, hm⟩ : ∃ m, mergeChainRecords (results.map (fun r =>
      normalizeWhois dom tld r.text (some r.serverQueried) raw)) = some m :=
    ⟨_, hm⟩
  refine ⟨?_, ?_, ?_⟩
  · have hwa : isWhoisAvailable current.text = false :=
      isWhoisAvailable_of_not_isAvailableByWhois current.text hreg
    simp only [collectLoop]
    simp [hext, hne, hfresh, henv, hwa, havail]
    split <;> rfl
  · rw [hm]
    have hreg_m := mergeChainRecords_isRegistered _ m hm
    have hany : (results.map (fun r =>
        normalizeWhois dom tld r.text (some r.serverQueried) raw)).any
          (fun r => r.isRegistered) = true := by
      refine List.any_eq_true.mpr ⟨normalizeWhois dom tld current.text
        (some current.serverQueried) raw, List.mem_map_of_mem _ hcurmem, ?_⟩
      show (!isAvailableByWhois current.text) = true
      rw [hreg]
      rfl
    simp only [Option.map_some']
    rw [hreg_m, hany]
  · rw [hm]
    have hs : ∀ r ∈ results.map (fun r =>
        normalizeWhois dom tld r.text (some r.serverQueried) raw), r.whoisServer.isSome := by
      intro r hr
      rcases List.mem_map.mp hr with ⟨x, _, rfl⟩
      rfl
    obtain ⟨last, hlast', hws⟩ := mergeChainRecords_whoisServer _ m hm hs
    have hmaplast : (results.map (fun r =>
        normalizeWhois dom tld r.text (some r.serverQueried) raw)).getLast? =
        some (normalizeWhois dom tld current.text (some current.serverQueried) raw) := by
      rw [List.getLast?_map, hlast]
      rfl
    rw [hmaplast] at hlast'
    injection hlast' with hlast'
    subst hlast'
    simp only [Option.map_some']
    rw [hws]
    rfl

/-- Witness for the amended claim C1: a concrete upstream response registered
under both availability lists, referred to a downstream server claiming
availability; the walker stops, the chain stays at the upstream server, and
the coalesced record is registered with the upstream server trail. -/
theorem walker_contradiction_amended_witness :
    isAvailableByWhois cleanUpstreamText = false
    ∧ isWhoisAvailable "No match for example.com" = true
    ∧ (collectLoop cleanDownstreamEnv 2 ["whois.nic2.example"]
        ⟨"whois.nic2.example", cleanUpstreamText⟩
        [⟨"whois.nic2.example", cleanUpstreamText⟩]).1 =
        [⟨"whois.nic2.example", cleanUpstreamText⟩]
    ∧ ((mergeChainRecords ([(⟨"whois.nic2.example", cleanUpstreamText⟩ : WhoisQueryResult)].map
        (fun r => normalizeWhois "example.com" "example" r.text (some r.serverQueried) false))).map
          (fun m => m.isRegistered)) = some true
    ∧ ((mergeChainRecords ([(⟨"whois.nic2.example", cleanUpstreamText⟩ : WhoisQueryResult)].map
        (fun r => normalizeWhois "example.com" "example" r.text (some r.serverQueried) false))).map
          (fun m => m.whoisServer)) = some (some "whois.nic2.example") := by
  have h := walker_contradiction_amended cleanDownstreamEnv 1 ["whois.nic2.example"]
    ⟨"whois.nic2.example", cleanUpstreamText⟩ [⟨"whois.nic2.example", cleanUpstreamText⟩]
    "whois.down2.example" "No match for example.com" "example.com" "example" false
    (by decide) (by decide) (by decide) (by decide) rfl (by decide) rfl
  exact ⟨by decide, by decide, h.1, h.2.1, h.2.2⟩

section RdapLoopLemmas

/-- Bases whose fetch throws are skipped, accumulating into the tried list and
the trace. -/
theorem tryRdapBases_skip_errs {α : Type} (env : LookupEnv α) (dom tld : String)
    (opts : LookupOptions) :
    ∀ (pre rest tried : List String),
      (∀ x ∈ pre, ∃ msg, fetchRdapDomain (env.http x) = .err msg) →
      tryRdapBases env dom tld opts (pre ++ rest) tried =
        ((tryRdapBases env dom tld opts rest (tried ++ pre)).1,
          pre.map NetOp.rdap ++ (tryRdapBases env dom tld opts rest (tried ++ pre)).2)
  | [], rest, tried, _ => by simp
  | b :: bs, rest, tried, h => by
    obtain ⟨msg, hmsg⟩ := h b (List.mem_cons_self b bs)
    have hta : tried ++ [b] ++ bs = tried ++ b :: bs := by simp
    have ih := tryRdapBases_skip_errs env dom tld opts bs rest (tried ++ [b])
      (fun x hx => h x (List.mem_cons_of_mem b hx))
    rw [hta] at ih
    simp only [List.cons_append, tryRdapBases, hmsg, List.append_eq]
    rw [ih]
    simp

/-- A base answering HTTP 404 terminates the loop with the explicit
not-registered record. -/
theorem tryRdapBases_notFound {α : Type} (env : LookupEnv α) (dom tld : String)
    (opts : LookupOptions) (b : String) (post tried : List String) (r : HttpResp α)
    (hb : env.http b = some r) (h404 : r.status = 404) :
    tryRdapBases env dom tld opts (b :: post) tried =
      (some { ok := true
            , record := some { domain := dom, tld := tld, isRegistered := false
                             , rdapServers := some (tried ++ [b]), source := "rdap" } },
        [NetOp.rdap b]) := by
  have hf : fetchRdapDomain (env.http b) = .notFound := by
    rw [hb]
    simp [fetchRdapDomain, h404]
  simp only [tryRdapBases, hf]

/-- A non-404, non-2xx response makes `fetchRdapDomain` throw the status-code
error with the 500-character body excerpt. -/
theorem fetchRdapDomain_err {α : Type} (r : HttpResp α)
    (h404 : r.status ≠ 404) (h2xx : ¬ (200 ≤ r.status ∧ r.status ≤ 299)) :
    fetchRdapDomain (some r) =
      FetchOutcome.err ("RDAP " ++ toString r.status ++ ": " ++ jsTake 500 r.bodyText) := by
  simp [fetchRdapDomain, h404, h2xx]

end RdapLoopLemmas

/-- Claim C3 — when `whoisOnly` is not set and one base URL's RDAP fetch
returns HTTP 404 (after any number of bases whose fetches threw), `lookup`
immediately returns `ok` with a record having `isRegistered = false` and
`source = "rdap"`, with no WHOIS operation in the trace; and a fetch answered
with any non-2xx status other than 404 throws an error carrying the status
code and the body truncated to 500 characters, making the loop move on to the
next base URL. -/
theorem rdap_404_short_circuit {α : Type} (env : LookupEnv α) (dom tld : String)
    (opts : LookupOptions) (pre post : List String) (b : String) (r : HttpResp α)
    (hld : isLikelyDomain dom = true)
    (hps : env.publicSuffix dom = some tld)
    (htld : tld.data.isEmpty = false)
    (hwo : opts.whoisOnly = false)
    (hbases : env.bases tld = .ok (pre ++ b :: post))
    (herrs : ∀ x ∈ pre, ∃ msg, fetchRdapDomain (env.http x) = .err msg)
    (hb : env.http b = some r)
    (h404 : r.status = 404) :
    lookup env dom opts =
      ({ ok := true
       , record := some { domain := dom, tld := tld, isRegistered := false
                        , rdapServers := some (pre ++ [b]), source := "rdap" } },
        NetOp.bootstrap tld :: (pre.map NetOp.rdap ++ [NetOp.rdap b]))
    ∧ (∀ s, NetOp.whois s ∉ (lookup env dom opts).2)
    ∧ (∀ (r2 : HttpResp α), r2.status ≠ 404 → ¬ (200 ≤ r2.status ∧ r2.status ≤ 299) →
        fetchRdapDomain (some r2) =
          FetchOutcome.err ("RDAP " ++ toString r2.status ++ ": " ++ jsTake 500 r2.bodyText))
    ∧ (∀ (b2 : String) (rest tried : List String) (r2 : HttpResp α),
        env.http b2 = some r2 → r2.status ≠ 404 → ¬ (200 ≤ r2.status ∧ r2.status ≤ 299) →
        (tryRdapBases env dom tld opts (b2 :: rest) tried).1 =
          (tryRdapBases env dom tld opts rest (tried ++ [b2])).1) := by
  have hmain : lookup env dom opts =
      ({ ok := true
       , record := some { domain := dom, tld := tld, isRegistered := false
                        , rdapServers := some (pre ++ [b]), source := "rdap" } },
        NetOp.bootstrap tld :: (pre.map NetOp.rdap ++ [NetOp.rdap b])) := by
    have hskip := tryRdapBases_skip_errs env dom tld opts pre (b :: post) [] herrs
    have hnf := tryRdapBases_notFound env dom tld opts b post pre r hb h404
    have hne : (pre ++ b :: post).isEmpty = false := by
      cases pre <;> simp
    simp only [lookup, hld, hps, htld, hwo, hbases, hne, Bool.true_eq_false,
      Bool.false_eq_true, if_false, not_true, reduceCtorEq, rdapThenWhois]
    simp only [List.nil_append] at hskip
    rw [hskip, hnf]
    simp
  refine ⟨hmain, ?_, ?_, ?_⟩
  · intro s hmem
    rw [hmain] at hmem
    simp at hmem
  · intro r2 ha hb2
    exact fetchRdapDomain_err r2 ha hb2
  · intro b2 rest tried r2 hb2 ha hc
    have hf : fetchRdapDomain (env.http b2) =
        FetchOutcome.err ("RDAP " ++ toString r2.status ++ ": " ++ jsTake 500 r2.bodyText) := by
      rw [hb2]
      exact fetchRdapDomain_err r2 ha hc
    simp only [tryRdapBases, hf]

/-- Witness for claim C3: with a concrete environment whose first base fails
with HTTP 500 and whose second answers 404, `lookup` returns the
not-registered RDAP record without any WHOIS operation. -/
theorem rdap_404_short_circuit_witness :
    (lookup rdapNotFoundEnv "example.com" {}).1 =
      { ok := true
      , record := some { domain := "example.com", tld := "com", isRegistered := false
                       , rdapServers := some ["https://rdap.bad.example/", "https://rdap.good.example/"]
                       , source := "rdap" } }
    ∧ (∀ s, NetOp.whois s ∉ (lookup rdapNotFoundEnv "example.com" {}).2) := by
  have h := rdap_404_short_circuit (α := Unit) rdapNotFoundEnv "example.com" "com" {}
    ["https://rdap.bad.example/"] [] "https://rdap.good.example/"
    { status := 404, bodyText := "", json := none }
    (by decide) rfl (by decide) rfl rfl
    (by
      intro x hx
      rw [List.mem_singleton] at hx
      subst hx
      exact ⟨"RDAP 500: boom", by decide⟩)
    rfl rfl
  refine ⟨?_, h.2.1⟩
  rw [h.1]
  simp

/-- `validateServices` throws whenever some entry fails the structural test. -/
theorem validateServices_err : ∀ (l : List Js) (idx : Nat),
    (∃ x ∈ l, goodServiceEntry x = false) → ∃ e, validateServices idx l = .error e
  | [], _, h => by simp at h
  | svc :: rest, idx, h => by
    by_cases hg : goodServiceEntry svc = true
    · obtain ⟨x, hx, hbad⟩ := h
      rcases List.mem_cons.mp hx with rfl | hx2
      · exact absurd hg (by simp [hbad])
      · obtain ⟨e, he⟩ := validateServices_err rest (idx + 1) ⟨x, hx2, hbad⟩
        exact ⟨e, by simp [validateServices, hg, he]⟩
    · exact ⟨"Invalid customBootstrapData: services[" ++ toString idx ++
        "] must be a tuple of [string[], string[]].", by simp [validateServices, hg]⟩

/-- Claim C5 — a caller-supplied bootstrap document that is not a truthy
object, or lacks a `services` array, or has a `services` entry failing the
pair-of-arrays test, makes `getRdapBaseUrlsForTld` throw a structural error
(never a silent empty result); whereas with no caller document and a failed
fetch or JSON parse it returns an empty array instead of throwing. -/
theorem bootstrap_malformed_throws_failed_fetch_empty (tld : String) (fetched : Option Js)
    (v : Js) :
    ((jsTruthy v = false ∨ jsIsObjectType v = false) →
      ∃ e, getRdapBaseUrlsForTld tld (some v) fetched = .error e)
    ∧ (jsTruthy v = true → jsIsObjectType v = true →
        jsIsArray (jsGet v "services") = false →
        ∃ e, getRdapBaseUrlsForTld tld (some v) fetched = .error e)
    ∧ (∀ l, jsGet v "services" = Js.arr l →
        (∃ x ∈ l, goodServiceEntry x = false) →
        jsTruthy v = true → jsIsObjectType v = true →
        ∃ e, getRdapBaseUrlsForTld tld (some v) fetched = .error e)
    ∧ getRdapBaseUrlsForTld tld none none = Except.ok [] := by
  refine ⟨?_, ?_, ?_, rfl⟩
  · intro h
    have hv : validateCustomBootstrapData v = .error
        "Invalid customBootstrapData: expected an object. See BootstrapData type for required structure." := by
      unfold validateCustomBootstrapData
      rw [if_pos]
      rcases h with h | h
      · exact Or.inl (by simp [h])
      · exact Or.inr (by simp [h])
    exact ⟨"Invalid customBootstrapData: expected an object. See BootstrapData type for required structure.",
      by simp [getRdapBaseUrlsForTld, hv]⟩
  · intro ht ho hs
    have hv : validateCustomBootstrapData v = .error
        "Invalid customBootstrapData: missing or invalid \"services\" array. See BootstrapData type for required structure." := by
      unfold validateCustomBootstrapData
      rw [if_neg (by simp [ht, ho]), if_pos (by simp [hs])]
    exact ⟨"Invalid customBootstrapData: missing or invalid \"services\" array. See BootstrapData type for required structure.",
      by simp [getRdapBaseUrlsForTld, hv]⟩
  · intro l hl hbad ht ho
    obtain ⟨e, he⟩ := validateServices_err l 0 hbad
    refine ⟨e, ?_⟩
    have hv : validateCustomBootstrapData v = .error e := by
      unfold validateCustomBootstrapData
      rw [if_neg (by simp [ht, ho]), if_neg (by simp [hl, jsIsArray])]
      simp [hl, he]
    simp [getRdapBaseUrlsForTld, hv]

/-- Witness for claim C5: a number, an object without `services`, and an
object whose `services` holds a one-element tuple all make
`getRdapBaseUrlsForTld` throw, while absent custom data with a failed fetch
yields an empty list. -/
theorem bootstrap_malformed_throws_failed_fetch_empty_witness :
    (∃ e, getRdapBaseUrlsForTld "com" (some (Js.num 5)) none = .error e)
    ∧ (∃ e, getRdapBaseUrlsForTld "com" (some (Js.obj [])) none = .error e)
    ∧ (∃ e, getRdapBaseUrlsForTld "com"
        (some (Js.obj [("services", Js.arr [Js.arr [Js.str "x"]])])) none = .error e)
    ∧ getRdapBaseUrlsForTld "com" none none = Except.ok [] :=
  ⟨(bootstrap_malformed_throws_failed_fetch_empty "com" none (Js.num 5)).1
      (Or.inr (by decide)),
   (bootstrap_malformed_throws_failed_fetch_empty "com" none (Js.obj [])).2.1
      (by decide) (by decide) (by decide),
   (bootstrap_malformed_throws_failed_fetch_empty "com" none
        (Js.obj [("services", Js.arr [Js.arr [Js.str "x"]])])).2.2.1
      [Js.arr [Js.str "x"]] rfl ⟨Js.arr [Js.str "x"], by simp, by decide⟩
      (by decide) (by decide),
   (bootstrap_malformed_throws_failed_fetch_empty "com" none (Js.num 5)).2.2.2⟩

/-- Claim C10 — `lookup` rejects any input failing the domain-shape test with
`ok = false` and the fixed error message, performing no network operation at
all; the shape test indeed rejects a disallowed character, a dotless name, a
label starting with a hyphen, and an overlong name, while accepting
`example.com`. -/
theorem invalid_input_rejected_before_network {α : Type} (env : LookupEnv α) (input : String)
    (opts : LookupOptions) (h : isLikelyDomain input = false) :
    lookup env input opts =
      ({ ok := false, error := some "Input does not look like a domain" }, [])
    ∧ isLikelyDomain "exa_mple.com" = false
    ∧ isLikelyDomain "localhost" = false
    ∧ isLikelyDomain "-a.com" = false
    ∧ isLikelyDomain (String.mk (List.replicate 250 'a') ++ ".com") = false
    ∧ isLikelyDomain "example.com" = true := by
  refine ⟨?_, by decide, by decide, by decide, by decide, by decide⟩
  simp [lookup, h]

/-- Witness for claim C10: on the dotless input `localhost`, `lookup` fails
with the guard message and an empty operation trace. -/
theorem invalid_input_rejected_before_network_witness :
    isLikelyDomain "localhost" = false
    ∧ lookup guardEnv "localhost" {} =
      ({ ok := false, error := some "Input does not look like a domain" }, []) :=
  ⟨by decide,
   (invalid_input_rejected_before_network guardEnv "localhost" {} (by decide)).1⟩

/-- Witness for claim C9: on a single-server network, the returned chain is
present and starts with the initial server's response. -/
theorem chain_starts_with_initial_response_witness :
    (collectWhoisReferralChain simpleChainEnv "whois.verisign.example" true none).1.isSome = true
    ∧ ((collectWhoisReferralChain simpleChainEnv "whois.verisign.example" true
          none).1.getD []).head? =
        some ⟨"whois.verisign.example", "Domain Name: EXAMPLE.COM"⟩ := by
  obtain ⟨rest, hrest⟩ := chain_starts_with_initial_response simpleChainEnv
    "whois.verisign.example" true none "Domain Name: EXAMPLE.COM" (by decide)
  rw [hrest]
  exact ⟨rfl, rfl⟩

/-- Witness for claim C7: merging two concrete records sharing the host
`NS1.example.com` with disjoint glue sets yields one lower-cased entry whose
`ipv4` is the union. -/
theorem merge_unions_disjoint_glue_witness :
    (mergeWhoisRecords
      { domain := "example.com", tld := "com", isRegistered := true
      , nameservers := some [{ host := "NS1.example.com", ipv4 := some ["192.0.2.1"]
                             , ipv6 := none }]
      , source := "whois" }
      [ { domain := "example.com", tld := "com", isRegistered := true
        , nameservers := some [{ host := "NS1.example.com", ipv4 := some ["192.0.2.9"]
                               , ipv6 := none }]
        , source := "whois" } ]).nameservers =
      some [{ host := "ns1.example.com", ipv4 := some ["192.0.2.1", "192.0.2.9"]
            , ipv6 := some [] }] := by
  have h := merge_unions_disjoint_glue
    { domain := "example.com", tld := "com", isRegistered := true
    , nameservers := some [{ host := "NS1.example.com", ipv4 := some ["192.0.2.1"]
                           , ipv6 := none }]
    , source := "whois" }
    { domain := "example.com", tld := "com", isRegistered := true
    , nameservers := some [{ host := "NS1.example.com", ipv4 := some ["192.0.2.9"]
                           , ipv6 := none }]
    , source := "whois" }
    "NS1.example.com" ["192.0.2.1"] ["192.0.2.9"] rfl rfl (by decide)
  rw [h]
  rfl

end Rdapper
